import Mathlib

/-!
# JoinRender-Flow workflow-engine core: shallow embedding and verification

This file embeds, in Lean 4, the workflow-engine core of the JoinRender-Flow
repository and proves or refutes the frozen claims about it.

Embedded source units:
* the Zustand workflow store (`addConnection`, `removeNode`) from the store module;
* the execution scheduler (`getExecutionOrder`, `getNodeInputs`, `executeNode`,
  `executeWorkflow`) from the executor service;
* the ComfyUI format translator (`comfyTypeMap`, `comfyNodeTypeMap`,
  `importComfyUIWorkflow`, `exportToComfyUIWorkflow`, `validateWorkflow`)
  from `CustomNodeEditor.tsx`;
* the definition registry lookup (`getNodeDefinition` over a registry list; in the
  source the registry is module-level mutable state equal to the built-in
  definition list extended by plugin-converted custom definitions, so it is
  passed here as an explicit parameter).

Modelling conventions:
* JavaScript objects used as string-keyed records (`Record<string, unknown>`)
  become association lists that keep JavaScript insertion-order semantics:
  setting an existing key updates it in place, a fresh key is appended, and
  `Object.values` reads values in that order.  JavaScript `Map` iteration
  order is likewise insertion order and is modelled the same way.
* JSON-like scalar values become the inductive type `Val`; the claims under
  verification only compare such values for equality.
* `uuidv4()` calls become explicitly supplied fresh identifiers (a parameter
  of the operation), since the claims depend only on which identifier was
  assigned, not on its randomness.
* Callback invocations (`onProgress` / `onNodeComplete` / `onNodeError`)
  become an event trace accumulated by the scheduler.
* The provider `switch` inside `executeNode` performs network I/O; per the
  spec's external-interface section it is the injected capability executor,
  so it is modelled as a function parameter producing the progress emissions
  it makes and either a thrown error message or an output record.
* Fields of the data model that no embedded operation reads (canvas state,
  node colours, icons, descriptions, widget descriptor contents, drag state)
  are omitted; the `widget` field of a port matters to the embedded code only
  through its presence, so it is kept as a `Bool`.
-/

/-- JSON-like scalar value appearing in literal-data records and
widget-value arrays. -/
inductive Val where
  | str (s : String)
  | num (n : Int)
  | bool (b : Bool)
  | null
deriving DecidableEq, Repr

/-- JavaScript `Map.set` / object property write: the first entry with the
key is updated in place (keys are unique in every map the embedded code
builds), a fresh key is appended. -/
def jsMapSet {K A : Type} [BEq K] (m : List (K × A)) (k : K) (v : A) : List (K × A) :=
  if m.any (fun p => p.1 == k) then
    m.map (fun p => if p.1 == k then (k, v) else p)
  else
    m ++ [(k, v)]

/-- JavaScript `Map.get` / object property read, `none` for `undefined`. -/
def jsMapGet {K A : Type} [BEq K] (m : List (K × A)) (k : K) : Option A :=
  (m.find? (fun p => p.1 == k)).map (fun p => p.2)

/-- A JavaScript object used as a string-keyed record, with insertion order. -/
abbrev SMap := List (String × Val)

/-- JavaScript property write `m[k] = v`: update in place if the key exists,
otherwise append. -/
def smapSet (m : SMap) (k : String) (v : Val) : SMap :=
  jsMapSet m k v

/-- JavaScript property read `m[k]`, `none` when absent (`undefined`). -/
def smapGet (m : SMap) (k : String) : Option Val :=
  jsMapGet m k

/-- `Object.assign(a, b)` / spread `{...a, ...b}`: write every property of
`b` into `a` in order. -/
def smapMerge (a b : SMap) : SMap :=
  b.foldl (fun acc p => smapSet acc p.1 p.2) a

/-- `Object.values(m)`: the values in insertion order. -/
def smapValues (m : SMap) : List Val :=
  m.map (fun p => p.2)

/-- A materialized port on a node instance (`Port` in the source types).
`widget` records presence of the optional widget descriptor, which is the
only aspect of it the embedded operations consult. -/
structure Port where
  id : String
  name : String
  ptype : String
  connected : Bool
  widget : Bool
deriving DecidableEq, Repr

/-- A connection between an output port and an input port (`Connection`
in the source types); `ctype` is the optional cached type tag. -/
structure Connection where
  id : String
  sourceNodeId : String
  sourcePortId : String
  targetNodeId : String
  targetPortId : String
  ctype : Option String
deriving DecidableEq, Repr

/-- A placed node instance (`NodeInstance` in the source types).  The TS
field `type` is called `ntype` here because `type` is reserved in Lean. -/
structure NodeInstance where
  id : String
  ntype : String
  pos : Int × Int
  data : SMap
  inputs : List Port
  outputs : List Port
  size : Option (Int × Int)
deriving DecidableEq, Repr

/-- The part of the workflow store state that the embedded operations
read or write: the node list and the connection list. -/
structure WorkflowState where
  nodes : List NodeInstance
  connections : List Connection
deriving DecidableEq, Repr

/-- Argument of `addConnection`: a connection without its id
(`Omit<Connection, 'id'>`). -/
structure ConnectionInput where
  sourceNodeId : String
  sourcePortId : String
  targetNodeId : String
  targetPortId : String
  ctype : Option String
deriving DecidableEq, Repr

/-- `addConnection` from the workflow store: silently drop an exact
duplicate; otherwise replace any connection already terminating at the
target (node, input-port) pair, append the new connection (with the fresh
id supplied for the `uuidv4()` call), and mark the new endpoints'
ports as connected. -/
def addConnection (st : WorkflowState) (conn : ConnectionInput) (newId : String) :
    WorkflowState :=
  let dup := st.connections.any (fun c =>
    c.sourceNodeId == conn.sourceNodeId &&
    c.sourcePortId == conn.sourcePortId &&
    c.targetNodeId == conn.targetNodeId &&
    c.targetPortId == conn.targetPortId)
  if dup then st
  else
    let targetHasConnection := st.connections.any (fun c =>
      c.targetNodeId == conn.targetNodeId && c.targetPortId == conn.targetPortId)
    let newConnections :=
      if targetHasConnection then
        st.connections.filter (fun c =>
          !(c.targetNodeId == conn.targetNodeId && c.targetPortId == conn.targetPortId))
      else st.connections
    let newConnection : Connection :=
      ⟨newId, conn.sourceNodeId, conn.sourcePortId, conn.targetNodeId,
        conn.targetPortId, conn.ctype⟩
    let updatedNodes := st.nodes.map (fun node =>
      if node.id == conn.sourceNodeId then
        { node with outputs := node.outputs.map (fun p =>
            if p.id == conn.sourcePortId then { p with connected := true } else p) }
      else if node.id == conn.targetNodeId then
        { node with inputs := node.inputs.map (fun p =>
            if p.id == conn.targetPortId then { p with connected := true } else p) }
      else node)
    { nodes := updatedNodes, connections := newConnections ++ [newConnection] }

/-- `removeNode` from the workflow store: drop the node with the given id
and every connection referencing it as source or target. -/
def removeNode (st : WorkflowState) (nodeId : String) : WorkflowState :=
  { nodes := st.nodes.filter (fun n => !(n.id == nodeId)),
    connections := st.connections.filter (fun c =>
      !(c.sourceNodeId == nodeId) && !(c.targetNodeId == nodeId)) }

/-! ## Execution scheduler -/

/-- Association map with JavaScript `Map` semantics (insertion order kept,
`set` on an existing key updates in place), specialised to degree counts. -/
abbrev DegMap := List (String × Int)

/-- `Map.get(k)` with the `|| d` default the scheduler applies. -/
def degGetD (m : DegMap) (k : String) (d : Int) : Int :=
  (jsMapGet m k).getD d

/-- `Map.set(k, v)` for the degree map. -/
def degSet (m : DegMap) (k : String) (v : Int) : DegMap :=
  jsMapSet m k v

/-- Adjacency map with JavaScript `Map` semantics. -/
abbrev AdjMap := List (String × List String)

/-- `adjacency.get(k) || []`. -/
def adjGetD (m : AdjMap) (k : String) : List String :=
  (jsMapGet m k).getD []

/-- `adjacency.set(k, v)`. -/
def adjSet (m : AdjMap) (k : String) (v : List String) : AdjMap :=
  jsMapSet m k v

/-- The first loop of `getExecutionOrder`: seed both maps with every node
at in-degree 0 / empty adjacency. -/
def seedMaps (nodes : List NodeInstance) : DegMap × AdjMap :=
  nodes.foldl (fun ma n => (degSet ma.1 n.id 0, adjSet ma.2 n.id [])) ([], [])

/-- The second loop of `getExecutionOrder`: for each connection append the
target to the source's adjacency list and increment the target's in-degree. -/
def buildMaps (nodes : List NodeInstance) (connections : List Connection) :
    DegMap × AdjMap :=
  connections.foldl (fun ma c =>
    let targets := adjGetD ma.2 c.sourceNodeId
    (degSet ma.1 c.targetNodeId (degGetD ma.1 c.targetNodeId 0 + 1),
     adjSet ma.2 c.sourceNodeId (targets ++ [c.targetNodeId])))
    (seedMaps nodes)

/-- One pass of the inner `targets.forEach` of the Kahn loop: decrement the
in-degree of each target in order and collect targets whose new degree is
exactly 0 (the ones the source pushes onto the queue). -/
def decTargets (deg : DegMap) : List String → DegMap × List String
  | [] => (deg, [])
  | t :: ts =>
    let nd := degGetD deg t 0 - 1
    let deg1 := degSet deg t nd
    let r := decTargets deg1 ts
    (r.1, (if nd = 0 then [t] else []) ++ r.2)

/-- The `while (queue.length > 0)` loop of `getExecutionOrder`, with an
explicit fuel argument; `kahnFuel` below always supplies enough fuel, as
`kahnLoop_fuel_irrelevant` proves. -/
def kahnLoop (adj : AdjMap) : Nat → List String → DegMap → List String → List String
  | 0, _, _, res => res
  | _ + 1, [], _, res => res
  | fuel + 1, q :: queue, deg, res =>
    let r := decTargets deg (adjGetD adj q)
    kahnLoop adj fuel (queue ++ r.2) r.1 (res ++ [q])

/-- Sum of the positive in-degrees; together with the queue length this
bounds the number of loop iterations remaining. -/
def sumPos (deg : DegMap) : Nat :=
  (deg.map (fun p => p.2.toNat)).sum

/-- Fuel that suffices to run the Kahn loop to completion. -/
def kahnFuel (queue : List String) (deg : DegMap) : Nat :=
  queue.length + sumPos deg

/-- `getExecutionOrder`: Kahn's-algorithm topological sort exactly as the
executor implements it (FIFO queue of zero-in-degree map keys in insertion
order, decrement on visit, enqueue newly-zero targets). -/
def getExecutionOrder (nodes : List NodeInstance) (connections : List Connection) :
    List String :=
  let dm := buildMaps nodes connections
  let queue := (dm.1.filter (fun p => p.2 == 0)).map (fun p => p.1)
  kahnLoop dm.2 (kahnFuel queue dm.1) queue dm.1 []

/-! ## Node definitions registry -/

/-- An input or output port spec inside a node definition.  As for `Port`,
only presence of the widget descriptor is consulted. -/
structure DefPort where
  name : String
  ptype : String
  widget : Bool
deriving DecidableEq, Repr

/-- A node definition from the registry (`NodeDefinition` in the source
types), restricted to the fields the embedded operations read. -/
structure NodeDefinition where
  ntype : String
  name : String
  inputs : List DefPort
  outputs : List DefPort
  defaultData : SMap
deriving DecidableEq, Repr

/-- `getNodeDefinition`: first definition in the registry whose type
matches. -/
def getNodeDefinition (registry : List NodeDefinition) (t : String) :
    Option NodeDefinition :=
  registry.find? (fun d => d.ntype == t)

/-! ## Workflow execution -/

/-- A callback invocation recorded during a run. -/
inductive Event where
  | progress (nodeId : String) (value : Nat) (message : String)
  | complete (nodeId : String) (outputs : SMap)
  | error (nodeId : String) (message : String)
deriving DecidableEq, Repr

/-- The injected capability executor: the provider `switch` of
`executeNode`.  Given the node kind and the resolved inputs it yields the
intermediate progress emissions it makes (each becomes a `progress` event
for the running node) and either the produced output record or the thrown
error message. -/
abbrev Capability := String → SMap → (List (Nat × String)) × Except String SMap

/-- The `nodeOutputs` map of the execution context (JS `Map`). -/
abbrev OutMap := List (String × SMap)

/-- `Map.get` on the node-output map. -/
def outsGet (m : OutMap) (k : String) : Option SMap :=
  jsMapGet m k

/-- `Map.set` on the node-output map. -/
def outsSet (m : OutMap) (k : String) (v : SMap) : OutMap :=
  jsMapSet m k v

/-- JS `String.prototype.replace` with a plain-string pattern: replace only
the first occurrence (here with the empty string, the only use). -/
def dropFirstOccur (l pat : List Char) : List Char :=
  match l with
  | [] => []
  | c :: rest => if pat.isPrefixOf l then l.drop pat.length
                 else c :: dropFirstOccur rest pat

/-- `s.replace(pat, "")`. -/
def replaceFirst (s pat : String) : String :=
  ⟨dropFirstOccur s.data pat.data⟩

/-- JS `parseInt` as used on port-id suffixes: the leading run of decimal
digits, `none` for `NaN`. -/
def parseIntOpt (s : String) : Option Nat :=
  let digits := s.data.takeWhile (fun c => c.isDigit)
  if digits.isEmpty then none
  else some (digits.foldl (fun acc c => acc * 10 + (c.toNat - 48)) 0)

/-- `getNodeInputs`: literal data of the node, overridden per input port by
the value at the same ordinal position in the producing node's output
record, found through the connection terminating at `input-<index>`. -/
def getNodeInputs (node : NodeInstance) (connections : List Connection)
    (nodeOutputs : OutMap) : SMap :=
  let inputs := smapMerge [] node.data
  node.inputs.enum.foldl (fun acc ia =>
    match connections.find? (fun c =>
        c.targetNodeId == node.id && c.targetPortId == ("input-" ++ toString ia.1)) with
    | none => acc
    | some connection =>
      match outsGet nodeOutputs connection.sourceNodeId with
      | none => acc
      | some sourceNode =>
        match parseIntOpt (replaceFirst connection.sourcePortId "output-") with
        | none => acc
        | some sourcePortIndex =>
          match (sourceNode.map (fun p => p.1)).get? sourcePortIndex with
          | none => acc
          | some key => smapSet acc ia.2.name ((smapGet sourceNode key).getD Val.null))
    inputs

/-- `executeNode`: definition check (a missing definition throws before any
callback), input resolution, the initial progress callback, the capability
dispatch, and on success the final progress callback — on a thrown error
the node-level catch reports the error through the error callback and
rethrows. -/
def executeNode (registry : List NodeDefinition) (cap : Capability)
    (node : NodeInstance) (connections : List Connection) (nodeOutputs : OutMap) :
    List Event × Except String SMap :=
  match getNodeDefinition registry node.ntype with
  | none => ([], Except.error ("未知节点类型: " ++ node.ntype))
  | some _ =>
    let inputs := getNodeInputs node connections nodeOutputs
    let capr := cap node.ntype inputs
    let progressEvents := capr.1.map (fun pm => Event.progress node.id pm.1 pm.2)
    match capr.2 with
    | Except.ok outputs =>
      (Event.progress node.id 10 "准备执行..." ::
        (progressEvents ++ [Event.progress node.id 100 "完成"]),
       Except.ok outputs)
    | Except.error msg =>
      (Event.progress node.id 10 "准备执行..." ::
        (progressEvents ++ [Event.error node.id msg]),
       Except.error msg)

/-- The value returned by `executeWorkflow` (the node-output map) together
with the trace of callback invocations the run made. -/
structure RunResult where
  events : List Event
  nodeOutputs : OutMap
deriving DecidableEq, Repr

/-- `executeWorkflow`: run the nodes in topological order; ids with no
matching node are skipped; a successful node records its outputs and
fires the completion callback; a failing node fires the workflow-level
error callback and the run continues. -/
def executeWorkflow (registry : List NodeDefinition) (cap : Capability)
    (nodes : List NodeInstance) (connections : List Connection) : RunResult :=
  let order := getExecutionOrder nodes connections
  order.foldl (fun acc nodeId =>
    match nodes.find? (fun n => n.id == nodeId) with
    | none => acc
    | some node =>
      let r := executeNode registry cap node connections acc.nodeOutputs
      match r.2 with
      | Except.ok outputs =>
        { events := acc.events ++ r.1 ++ [Event.complete nodeId outputs],
          nodeOutputs := outsSet acc.nodeOutputs nodeId outputs }
      | Except.error msg =>
        { events := acc.events ++ r.1 ++ [Event.error nodeId msg],
          nodeOutputs := acc.nodeOutputs })
    ⟨[], []⟩

/-- Number of error-callback invocations a trace contains for a node. -/
def countNodeErrors (events : List Event) (nodeId : String) : Nat :=
  (events.filter (fun e =>
    match e with
    | Event.error i _ => i == nodeId
    | _ => false)).length

/-! ## ComfyUI format translator -/

/-- External node record (`ComfyUINode`); fields the translator never
reads (`flags`, `order`, `mode`, `properties`) are omitted.  `ctype` is the
TS field `type`. -/
structure ComfyInput where
  name : String
  ctype : String
  link : Option Nat
deriving DecidableEq, Repr

/-- External output slot record. -/
structure ComfyOutput where
  name : String
  ctype : String
  links : Option (List Nat)
  slot_index : Option Nat
deriving DecidableEq, Repr

/-- External node record. -/
structure ComfyUINode where
  id : Nat
  ctype : String
  pos : Int × Int
  size : Option (Int × Int)
  inputs : Option (List ComfyInput)
  outputs : Option (List ComfyOutput)
  widgets_values : Option (List Val)
deriving DecidableEq, Repr

/-- External link record `[linkId, srcNode, srcSlot, dstNode, dstSlot, type]`. -/
structure ComfyUILink where
  linkId : Nat
  srcNode : Nat
  srcSlot : Nat
  dstNode : Nat
  dstSlot : Nat
  ltype : String
deriving DecidableEq, Repr

/-- External workflow document. -/
structure ComfyUIWorkflow where
  last_node_id : Nat
  last_link_id : Nat
  nodes : List ComfyUINode
  links : List ComfyUILink
deriving DecidableEq, Repr

/-- String-keyed JS object of strings (the type dictionaries). -/
abbrev StrMap := List (String × String)

/-- Property read on a string dictionary. -/
def strLookup (m : StrMap) (k : String) : Option String :=
  jsMapGet m k

/-- Property write on a string dictionary (JS object semantics). -/
def strSet (m : StrMap) (k : String) (v : String) : StrMap :=
  jsMapSet m k v

/-- `comfyTypeMap`: ComfyUI value-type names to internal port-type tags. -/
def comfyTypeMap : StrMap :=
  [("MODEL", "model"), ("CLIP", "clip"), ("VAE", "vae"), ("LATENT", "latent"),
   ("IMAGE", "image"), ("MASK", "mask"), ("CONDITIONING", "conditioning"),
   ("CONTROL_NET", "control_net"), ("INT", "int"), ("FLOAT", "float"),
   ("STRING", "text"), ("BOOLEAN", "boolean")]

/-- `comfyNodeTypeMap`: ComfyUI node-type names to internal node kinds. -/
def comfyNodeTypeMap : StrMap :=
  [("CheckpointLoaderSimple", "checkpoint-loader"), ("KSampler", "ksampler"),
   ("CLIPTextEncode", "clip-text-encode"), ("VAEDecode", "vae-decode"),
   ("VAEEncode", "vae-encode"), ("EmptyLatentImage", "empty-latent"),
   ("SaveImage", "image-output"), ("LoadImage", "image-upload"),
   ("PreviewImage", "image-output")]

/-- `Object.entries` fold inverting a dictionary (a later duplicate value
overwrites an earlier one, as in the source). -/
def reverseStrMap (m : StrMap) : StrMap :=
  m.foldl (fun acc p => strSet acc p.2 p.1) []

/-- Map from external numeric node ids to fresh internal ids. -/
abbrev NatIdMap := List (Nat × String)

/-- `Map.get` on the import id-remap table. -/
def natMapGet (m : NatIdMap) (k : Nat) : Option String :=
  jsMapGet m k

/-- `Map.set` on the import id-remap table. -/
def natMapSet (m : NatIdMap) (k : Nat) (v : String) : NatIdMap :=
  jsMapSet m k v

/-- Map from internal string node ids to external numeric ids. -/
abbrev StrNatMap := List (String × Nat)

/-- `Map.get` on the export id-remap table. -/
def snMapGet (m : StrNatMap) (k : String) : Option Nat :=
  jsMapGet m k

/-- `Map.set` on the export id-remap table. -/
def snMapSet (m : StrNatMap) (k : String) (v : Nat) : StrNatMap :=
  jsMapSet m k v

/-- JS `String.prototype.toLowerCase` (ASCII input), character-wise.
(`String.toLower` itself is extensionally the same function here but its
byte-position recursion does not reduce in the kernel, so the embedding
maps over the character list instead.) -/
def strToLower (s : String) : String :=
  ⟨s.data.map Char.toLower⟩

/-- Literal-data population for one imported node: with a resolved
definition, each widget-bearing definition input at absolute position
`index` receives `widgets_values[index]` when defined; without a
definition every widget value is stored under a generic `param_<index>`
key. -/
def importNodeData (definition : Option NodeDefinition) (wv : Option (List Val)) :
    SMap :=
  match wv with
  | none => []
  | some values =>
    match definition with
    | some d =>
      d.inputs.enum.foldl (fun m ip =>
        if ip.2.widget then
          match values.get? ip.1 with
          | some v => smapSet m ip.2.name v
          | none => m
        else m) []
    | none =>
      values.enum.foldl (fun m iv =>
        smapSet m ("param_" ++ toString iv.1) iv.2) []

/-- One imported node instance (body of the node loop of
`importComfyUIWorkflow`); the `widget` field of materialized ports is
absent in the constructed object, hence `false`. -/
def importComfyNode (registry : List NodeDefinition) (nodeId : String)
    (comfyNode : ComfyUINode) : NodeInstance :=
  let nodeType := (strLookup comfyNodeTypeMap comfyNode.ctype).getD
    ("comfy-" ++ strToLower comfyNode.ctype)
  let definition := getNodeDefinition registry nodeType
  { id := nodeId
    ntype := nodeType
    pos := comfyNode.pos
    data := importNodeData definition comfyNode.widgets_values
    inputs := (comfyNode.inputs.getD []).enum.map (fun ip =>
      ⟨"input-" ++ toString ip.1, ip.2.name,
        (strLookup comfyTypeMap ip.2.ctype).getD "any", ip.2.link.isSome, false⟩)
    outputs := (comfyNode.outputs.getD []).enum.map (fun op =>
      ⟨"output-" ++ toString op.1, op.2.name,
        (strLookup comfyTypeMap op.2.ctype).getD "any",
        (op.2.links.getD []).length > 0, false⟩)
    size := comfyNode.size }

/-- Body of the link loop of `importComfyUIWorkflow` for one external
link: drop it unless both endpoints remap through the id table, otherwise
append the converted connection record. -/
def importConnStep (table : NatIdMap) (mkConnId : Nat → String)
    (conns : List Connection) (link : ComfyUILink) : List Connection :=
  match natMapGet table link.srcNode, natMapGet table link.dstNode with
  | some sourceId, some targetId =>
    conns ++ [⟨mkConnId conns.length, sourceId,
      "output-" ++ toString link.srcSlot, targetId,
      "input-" ++ toString link.dstSlot,
      some ((strLookup comfyTypeMap link.ltype).getD "any")⟩]
  | _, _ => conns

/-- `importComfyUIWorkflow`: fresh internal ids per external node (the
`uuidv4()` calls are supplied through `mkNodeId` / `mkConnId`), node
conversion as in `importComfyNode`, then link conversion through the id
remap table, dropping links whose endpoints did not remap. -/
def importComfyUIWorkflow (registry : List NodeDefinition)
    (mkNodeId mkConnId : Nat → String) (wf : ComfyUIWorkflow) : WorkflowState :=
  let nodeStep := wf.nodes.enum.foldl
    (fun (acc : NatIdMap × List NodeInstance) inode =>
      let nodeId := mkNodeId inode.1
      (natMapSet acc.1 inode.2.id nodeId,
       acc.2 ++ [importComfyNode registry nodeId inode.2]))
    ([], [])
  let connections := wf.links.foldl (importConnStep nodeStep.1 mkConnId) []
  { nodes := nodeStep.2, connections := connections }

/-- First character upper-cased, as in
`comfyType.charAt(0).toUpperCase() + comfyType.slice(1)`. -/
def capitalizeHead (s : String) : String :=
  match s.data with
  | [] => s
  | c :: rest => ⟨c.toUpper :: rest⟩

/-- External type name for an internal kind on export: the reverse node
dictionary, else the `comfy-` strip-and-title-case heuristic, else the
kind itself. -/
def exportComfyType (reverseNodeTypeMap : StrMap) (ntype : String) : String :=
  match strLookup reverseNodeTypeMap ntype with
  | some t => t
  | none =>
    if ntype.startsWith "comfy-" then
      capitalizeHead ((replaceFirst ntype "comfy-").replace "-" "")
    else ntype

/-- Base external record for one exported node, before link back-filling. -/
def exportComfyNode (reverseTypeMap reverseNodeTypeMap : StrMap)
    (comfyId : Nat) (node : NodeInstance) : ComfyUINode :=
  { id := comfyId
    ctype := exportComfyType reverseNodeTypeMap node.ntype
    pos := node.pos
    size := some (node.size.getD (200, 100))
    inputs := some (node.inputs.map (fun inp =>
      ⟨inp.name, (strLookup reverseTypeMap inp.ptype).getD "STRING", none⟩))
    outputs := some (node.outputs.enum.map (fun op =>
      ⟨op.2.name, (strLookup reverseTypeMap op.2.ptype).getD "STRING",
        some [], some op.1⟩))
    widgets_values := some (smapValues node.data) }

/-- In-place update of the first list element satisfying the test (JS
`Array.prototype.find` followed by mutation). -/
def updateFirst (l : List ComfyUINode) (p : ComfyUINode → Bool)
    (f : ComfyUINode → ComfyUINode) : List ComfyUINode :=
  match l with
  | [] => []
  | x :: xs => if p x then f x :: xs else x :: updateFirst xs p f

/-- Back-fill of the exported source node: push the link id onto
`outputs[sourceSlot].links`. -/
def backfillSource (cnodes : List ComfyUINode) (comfyId sourceSlot linkId : Nat) :
    List ComfyUINode :=
  updateFirst cnodes (fun n => n.id == comfyId) (fun n =>
    match n.outputs with
    | none => n
    | some outs =>
      match outs.get? sourceSlot with
      | none => n
      | some o =>
        { n with outputs := some (outs.set sourceSlot
            { o with links := some ((o.links.getD []) ++ [linkId]) }) })

/-- Back-fill of the exported target node: set `inputs[targetSlot].link`. -/
def backfillTarget (cnodes : List ComfyUINode) (comfyId targetSlot linkId : Nat) :
    List ComfyUINode :=
  updateFirst cnodes (fun n => n.id == comfyId) (fun n =>
    match n.inputs with
    | none => n
    | some ins =>
      match ins.get? targetSlot with
      | none => n
      | some i2 =>
        { n with inputs := some (ins.set targetSlot { i2 with link := some linkId }) })

/-- State of the link loop of the export: emitted links, the node records
being back-filled, and the link-id counter. -/
structure ExportLinkState where
  links : List ComfyUILink
  cnodes : List ComfyUINode
  linkCounter : Nat
deriving Repr

/-- Body of the link loop of `exportToComfyUIWorkflow` for one internal
connection: skip it unless both endpoints remap and both port ids occur in
the respective port lists, otherwise emit the link record and back-fill
both endpoint node records. -/
def exportLinkStep (idMap : StrNatMap) (reverseTypeMap : StrMap)
    (nodes : List NodeInstance) (acc : ExportLinkState) (conn : Connection) :
    ExportLinkState :=
  match snMapGet idMap conn.sourceNodeId, snMapGet idMap conn.targetNodeId with
  | some sourceComfyId, some targetComfyId =>
    match nodes.find? (fun n => n.id == conn.sourceNodeId),
          nodes.find? (fun n => n.id == conn.targetNodeId) with
    | some sourceNode, some targetNode =>
      match sourceNode.outputs.findIdx? (fun o => o.id == conn.sourcePortId),
            targetNode.inputs.findIdx? (fun i2 => i2.id == conn.targetPortId) with
      | some sourceSlot, some targetSlot =>
        match sourceNode.outputs.get? sourceSlot with
        | some sourceOutput =>
          let linkId := acc.linkCounter
          let link : ComfyUILink :=
            ⟨linkId, sourceComfyId, sourceSlot, targetComfyId, targetSlot,
              (strLookup reverseTypeMap sourceOutput.ptype).getD "STRING"⟩
          { links := acc.links ++ [link]
            cnodes := backfillTarget
              (backfillSource acc.cnodes sourceComfyId sourceSlot linkId)
              targetComfyId targetSlot linkId
            linkCounter := acc.linkCounter + 1 }
        | none => acc
      | _, _ => acc
    | _, _ => acc
  | _, _ => acc

/-- `exportToComfyUIWorkflow`: external ids from a monotonic counter
starting at 1, reverse dictionaries built from the forward ones, one link
record per convertible connection with positional slot numbers, and
mutually consistent per-node link references back-filled from the emitted
links. -/
def exportToComfyUIWorkflow (nodes : List NodeInstance)
    (connections : List Connection) : ComfyUIWorkflow :=
  let reverseTypeMap := reverseStrMap comfyTypeMap
  let reverseNodeTypeMap := reverseStrMap comfyNodeTypeMap
  let nodeStep := nodes.enum.foldl
    (fun (acc : StrNatMap × List ComfyUINode) inode =>
      (snMapSet acc.1 inode.2.id (inode.1 + 1),
       acc.2 ++ [exportComfyNode reverseTypeMap reverseNodeTypeMap
         (inode.1 + 1) inode.2]))
    ([], [])
  let linkStep := connections.foldl
    (exportLinkStep nodeStep.1 reverseTypeMap nodes)
    ⟨[], nodeStep.2, 1⟩
  { last_node_id := nodes.length
    last_link_id := linkStep.linkCounter - 1
    nodes := linkStep.cnodes
    links := linkStep.links }

/-- The link record the export loop emits for one convertible connection
(the `ComfyUILink` literal built in the connection loop of
`exportToComfyUIWorkflow`), with each component read off the same lookup
the loop performs; the `getD` defaults are never reached on a connection
the loop does not skip. -/
def exportLinkRecord (idMap : StrNatMap) (reverseTypeMap : StrMap)
    (nodes : List NodeInstance) (linkId : Nat) (conn : Connection) : ComfyUILink :=
  let sourceNode := nodes.find? (fun n => n.id == conn.sourceNodeId)
  let sourceSlot := (sourceNode.bind (fun sn =>
    sn.outputs.findIdx? (fun o => o.id == conn.sourcePortId))).getD 0
  ⟨linkId,
   (snMapGet idMap conn.sourceNodeId).getD 0,
   sourceSlot,
   (snMapGet idMap conn.targetNodeId).getD 0,
   ((nodes.find? (fun n => n.id == conn.targetNodeId)).bind (fun tn =>
     tn.inputs.findIdx? (fun i2 => i2.id == conn.targetPortId))).getD 0,
   ((sourceNode.bind (fun sn => sn.outputs.get? sourceSlot)).map
     (fun o => (strLookup reverseTypeMap o.ptype).getD "STRING")).getD "STRING"⟩

/-- A connection the export link loop does not skip over: both endpoints
remap through the id table, both endpoint nodes are found, both port ids
occur in the respective port lists, and the source output record exists. -/
def ExportConvertible (idMap : StrNatMap) (nodes : List NodeInstance)
    (conn : Connection) : Prop :=
  (snMapGet idMap conn.sourceNodeId).isSome = true ∧
  (snMapGet idMap conn.targetNodeId).isSome = true ∧
  ((nodes.find? (fun n => n.id == conn.sourceNodeId)).bind (fun sn =>
    (sn.outputs.findIdx? (fun o => o.id == conn.sourcePortId)).bind (fun s =>
      sn.outputs.get? s))).isSome = true ∧
  ((nodes.find? (fun n => n.id == conn.targetNodeId)).bind (fun tn =>
    tn.inputs.findIdx? (fun i2 => i2.id == conn.targetPortId))).isSome = true

/-- The connection record the import link loop emits for one external link
whose endpoints both remap; the `getD` defaults are never reached then. -/
def importLinkConn (table : NatIdMap) (mkConnId : Nat → String) (i : Nat)
    (link : ComfyUILink) : Connection :=
  ⟨mkConnId i,
   (natMapGet table link.srcNode).getD "",
   "output-" ++ toString link.srcSlot,
   (natMapGet table link.dstNode).getD "",
   "input-" ++ toString link.dstSlot,
   some ((strLookup comfyTypeMap link.ltype).getD "any")⟩

/-! ## Workflow validation -/

/-- Result record of `validateWorkflow`. -/
structure ValidationResult where
  valid : Bool
  errors : List String
  warnings : List String
deriving DecidableEq, Repr

/-- The empty-workflow informational warning text. -/
def emptyWorkflowMsg : String := "工作流为空"

/-- The unconnected-node warning text for a node kind. -/
def isolatedMsg (ntype : String) : String :=
  "节点 \"" ++ ntype ++ "\" 未连接到其他节点"

/-- The cycle error text. -/
def cycleMsg : String := "工作流存在循环依赖"

/-- The unconnected-required-input warning text. -/
def inputMsg (defName inputName : String) : String :=
  "节点 \"" ++ defName ++ "\" 的输入 \"" ++ inputName ++ "\" 未连接"

mutual

/-- `hasCycle(nodeId)` of the validator: mark the node visited and on the
recursion stack, then scan its outgoing connections.  Returns the flag and
the updated visited set (the recursion stack is restored on return).  The
fuel argument only bounds the recursion depth, which is bounded by the
number of distinct ids; `validateWorkflow` supplies more than that. -/
def hasCycleAux (conns : List Connection) :
    Nat → String → List String → List String → Bool × List String
  | 0, _, vis, _ => (false, vis)
  | fuel + 1, v, vis, stk =>
    let vis1 := if vis.contains v then vis else vis ++ [v]
    let stk1 := if stk.contains v then stk else stk ++ [v]
    hasCycleGo conns fuel (conns.filter (fun c => c.sourceNodeId == v)) vis1 stk1
termination_by fuel _v _vis _stk => (fuel, 0)

/-- The `for (const conn of outgoing)` loop inside `hasCycle`: recurse into
unvisited targets (propagating a found cycle immediately) and report a
cycle when a target is on the recursion stack. -/
def hasCycleGo (conns : List Connection) :
    Nat → List Connection → List String → List String → Bool × List String
  | _, [], vis, _ => (false, vis)
  | fuel, c :: rest, vis, stk =>
    if !(vis.contains c.targetNodeId) then
      match hasCycleAux conns fuel c.targetNodeId vis stk with
      | (true, vis2) => (true, vis2)
      | (false, vis2) => hasCycleGo conns fuel rest vis2 stk
    else if stk.contains c.targetNodeId then (true, vis)
    else hasCycleGo conns fuel rest vis stk
termination_by fuel l _vis _stk => (fuel, l.length + 1)

end

/-- The `for (const node of nodes)` cycle-scan loop: thread the visited set
and stop at the first detected cycle (the source `break`s after pushing
the single error). -/
def detectCycleFold (conns : List Connection) (fuel : Nat) :
    List NodeInstance → List String → Bool
  | [], _ => false
  | n :: rest, vis =>
    if vis.contains n.id then detectCycleFold conns fuel rest vis
    else
      match hasCycleAux conns fuel n.id vis [] with
      | (true, _) => true
      | (false, vis2) => detectCycleFold conns fuel rest vis2

/-- Whether the validator's depth-first search finds a cycle. -/
def detectCycle (nodes : List NodeInstance) (conns : List Connection) : Bool :=
  detectCycleFold conns (nodes.length + conns.length + 1) nodes []

/-- The per-node required-input scan (last phase of `validateWorkflow`). -/
def inputWarnings (registry : List NodeDefinition) (conns : List Connection)
    (n : NodeInstance) : List String :=
  match getNodeDefinition registry n.ntype with
  | none => []
  | some d =>
    n.inputs.foldr (fun inp acc =>
      if !inp.widget && !inp.connected &&
          !(conns.any (fun c => c.targetNodeId == n.id && c.targetPortId == inp.id)) then
        inputMsg d.name inp.name :: acc
      else acc) []

/-- The `connectedNodeIds` set of `validateWorkflow`: every connection
adds its source and target id. -/
def connectedNodeIds (conns : List Connection) : List String :=
  conns.foldl (fun s c => s ++ [c.sourceNodeId, c.targetNodeId]) []

/-- The unconnected-node scan of `validateWorkflow`: one warning per node
unreferenced by any connection, emitted only when more than one node
exists. -/
def isolatedWarnings (nodes : List NodeInstance) (conns : List Connection) :
    List String :=
  (nodes.filter (fun n =>
    !((connectedNodeIds conns).contains n.id) && decide (1 < nodes.length))).map
    (fun n => isolatedMsg n.ntype)

/-- `validateWorkflow`: empty-workflow check, unconnected-node warnings
(only when more than one node exists), the DFS cycle error, and the
unconnected-required-input warnings, in the source's push order. -/
def validateWorkflow (registry : List NodeDefinition)
    (nodes : List NodeInstance) (conns : List Connection) : ValidationResult :=
  if nodes.length == 0 then ⟨true, [], [emptyWorkflowMsg]⟩
  else
    let errors := if detectCycle nodes conns then [cycleMsg] else []
    let inWarnings := nodes.foldr
      (fun n acc => inputWarnings registry conns n ++ acc) []
    ⟨errors.length == 0, errors, isolatedWarnings nodes conns ++ inWarnings⟩

/-! ## Claims about the graph-model operations -/

/-- Helper: the connection record `addConnection` constructs from its
input and the fresh id. -/
def mkConnection (conn : ConnectionInput) (newId : String) : Connection :=
  ⟨newId, conn.sourceNodeId, conn.sourcePortId, conn.targetNodeId,
    conn.targetPortId, conn.ctype⟩

/-- Targets of the connections leaving `s` (the adjacency list the
scheduler builds for `s`), in connection order. -/
def targetsOf (conns : List Connection) (s : String) : List String :=
  (conns.filter (fun c => c.sourceNodeId == s)).map (fun c => c.targetNodeId)

/-- Number of connections into `t` (the in-degree the scheduler computes). -/
def inCount (conns : List Connection) (t : String) : Nat :=
  (conns.filter (fun c => c.targetNodeId == t)).length

/-- Number of connections into `t` whose source has already been emitted. -/
def paidCount (conns : List Connection) (done : List String) (t : String) : Nat :=
  (conns.filter (fun c => c.targetNodeId == t && done.contains c.sourceNodeId)).length

/-- Number of connections from `q` into `t`. -/
def edgeCount (conns : List Connection) (q t : String) : Nat :=
  (conns.filter (fun c => c.sourceNodeId == q && c.targetNodeId == t)).length

/-- `a` occurs strictly before `b` in the list. -/
def before (res : List String) (a b : String) : Prop :=
  ∃ i j, i < j ∧ res.get? i = some a ∧ res.get? j = some b

/-- The induction invariant of the Kahn loop: the emitted list and queue
hold no duplicates, the stored degree of every id is its in-degree minus
the connections already paid by emitted sources, every emitted target is
preceded by its sources, every emitted or queued target has all its
sources emitted, and every id in play is a node id or a connection
target. -/
structure KahnInv (nodes : List NodeInstance) (conns : List Connection)
    (queue : List String) (deg : DegMap) (res : List String) : Prop where
  nodup : (res ++ queue).Nodup
  degacc : ∀ t, degGetD deg t 0 = (inCount conns t : Int) - (paidCount conns res t : Int)
  ordered : ∀ c ∈ conns, c.targetNodeId ∈ res → before res c.sourceNodeId c.targetNodeId
  paid_full : ∀ c ∈ conns, (c.targetNodeId ∈ res ∨ c.targetNodeId ∈ queue) →
    c.sourceNodeId ∈ res
  domain : ∀ v, (v ∈ res ∨ v ∈ queue) →
    v ∈ nodes.map NodeInstance.id ∨ v ∈ conns.map Connection.targetNodeId

/-- A nonempty directed path along connections (edges go from a
connection's source node to its target node). -/
inductive EdgePath (conns : List Connection) : String → String → Prop where
  | single (c : Connection) (hc : c ∈ conns) :
      EdgePath conns c.sourceNodeId c.targetNodeId
  | cons (c : Connection) (hc : c ∈ conns) {w : String}
      (rest : EdgePath conns c.targetNodeId w) : EdgePath conns c.sourceNodeId w

/-- The graph (as a connection list) has no directed cycle. -/
def Acyclic (conns : List Connection) : Prop :=
  ∀ v, ¬ EdgePath conns v v

/-- The three-node chain `a -> b -> c` used to check the partial-failure
contract: each node has one input and one output port, empty literal
data, and the kinds `ka`, `kb`, `kc`. -/
def chainA : NodeInstance :=
  ⟨"a", "ka", (0, 0), [], [⟨"input-0", "in", "any", false, false⟩],
    [⟨"output-0", "out", "any", false, false⟩], none⟩

/-- Middle node of the chain. -/
def chainB : NodeInstance :=
  ⟨"b", "kb", (0, 0), [], [⟨"input-0", "in", "any", false, false⟩],
    [⟨"output-0", "out", "any", false, false⟩], none⟩

/-- Last node of the chain. -/
def chainC : NodeInstance :=
  ⟨"c", "kc", (0, 0), [], [⟨"input-0", "in", "any", false, false⟩],
    [⟨"output-0", "out", "any", false, false⟩], none⟩

/-- The chain's connections `a -> b` and `b -> c`. -/
def chainConns : List Connection :=
  [⟨"c1", "a", "output-0", "b", "input-0", none⟩,
   ⟨"c2", "b", "output-0", "c", "input-0", none⟩]

/-- One step of the literal-data fold of the importer. -/
def importDataStep (wv : List Val) (m : SMap) (ip : Nat × DefPort) : SMap :=
  if ip.2.widget then
    match wv.get? ip.1 with
    | some v => smapSet m ip.2.name v
    | none => m
  else m

/-- C4 (counterexample).  The claim quantifies over every graph with at
least one connection into the target pair and every further connection
added to that pair.  Two failing instances, both stated here: (1) a state
holding two connections with identical endpoints into the pair (loadable
via `loadWorkflow`, which accepts arbitrary connection arrays) is left
with both of them, not exactly one, because the exact-duplicate check
fires first; (2) re-adding the endpoints of the single existing connection
is a no-op, so the one remaining connection is the old record `"c1"`, not
the newly added one `"c2"`. -/
theorem addConnection_occupied_pair_counterexample :
    (((addConnection
        ⟨[], [⟨"c1", "a", "output-0", "b", "input-0", none⟩,
              ⟨"c1b", "a", "output-0", "b", "input-0", none⟩]⟩
        ⟨"a", "output-0", "b", "input-0", none⟩ "c2").connections.filter
      (fun c => c.targetNodeId == "b" && c.targetPortId == "input-0")).length = 2)
    ∧
    (((addConnection
        ⟨[], [⟨"c1", "a", "output-0", "b", "input-0", none⟩]⟩
        ⟨"a", "output-0", "b", "input-0", none⟩ "c2").connections.filter
      (fun c => c.targetNodeId == "b" && c.targetPortId == "input-0")).map
        Connection.id = ["c1"]) := by
  decide

/-- C4 (amended).  For every graph with at least one connection already
terminating at the target (node, input-port) pair, adding a connection to
that pair that is not an exact duplicate (same source port and same target
port) of an existing connection leaves exactly one connection terminating
there, namely the newly added one. -/
theorem addConnection_occupied_pair_lastWriteWins
    (st : WorkflowState) (conn : ConnectionInput) (newId : String)
    (hocc : ∃ c ∈ st.connections, c.targetNodeId = conn.targetNodeId ∧
      c.targetPortId = conn.targetPortId)
    (hnodup : ∀ c ∈ st.connections, ¬(c.sourceNodeId = conn.sourceNodeId ∧
      c.sourcePortId = conn.sourcePortId ∧ c.targetNodeId = conn.targetNodeId ∧
      c.targetPortId = conn.targetPortId)) :
    (addConnection st conn newId).connections.filter
      (fun c => c.targetNodeId == conn.targetNodeId &&
        c.targetPortId == conn.targetPortId) = [mkConnection conn newId] := by
  unfold addConnection
  have hdup : st.connections.any (fun c =>
      c.sourceNodeId == conn.sourceNodeId && c.sourcePortId == conn.sourcePortId &&
      c.targetNodeId == conn.targetNodeId && c.targetPortId == conn.targetPortId)
      = false := by
    rw [List.any_eq_false]
    intro c hc
    have := hnodup c hc
    simp only [Bool.and_eq_true, beq_iff_eq]
    tauto
  have htgt : st.connections.any (fun c =>
      c.targetNodeId == conn.targetNodeId && c.targetPortId == conn.targetPortId)
      = true := by
    rw [List.any_eq_true]
    obtain ⟨c, hc, h1, h2⟩ := hocc
    exact ⟨c, hc, by simp [h1, h2]⟩
  simp only [hdup, Bool.false_eq_true, if_false, htgt, if_true]
  rw [List.filter_append]
  have h1 : (st.connections.filter (fun c =>
      !(c.targetNodeId == conn.targetNodeId && c.targetPortId == conn.targetPortId))).filter
      (fun c => c.targetNodeId == conn.targetNodeId && c.targetPortId == conn.targetPortId)
      = [] := by
    rw [List.filter_filter]
    apply List.filter_eq_nil_iff.mpr
    intro c _
    cases h : (c.targetNodeId == conn.targetNodeId && c.targetPortId == conn.targetPortId) <;>
      simp [h]
  rw [h1]
  simp [mkConnection]

/-- C4 (witness). -/
theorem addConnection_occupied_pair_lastWriteWins_witness :
    (addConnection ⟨[], [⟨"c0", "c", "output-0", "b", "input-0", none⟩]⟩
      ⟨"a", "output-0", "b", "input-0", none⟩ "c9").connections.filter
      (fun c => c.targetNodeId == "b" && c.targetPortId == "input-0") =
      [⟨"c9", "a", "output-0", "b", "input-0", none⟩] := by
  have h := addConnection_occupied_pair_lastWriteWins
    ⟨[], [⟨"c0", "c", "output-0", "b", "input-0", none⟩]⟩
    ⟨"a", "output-0", "b", "input-0", none⟩ "c9"
    ⟨⟨"c0", "c", "output-0", "b", "input-0", none⟩, by decide, by decide⟩
    (by decide)
  exact h

/-- C5 (counterexample).  A self-loop connection (source node equal to
target node) is not rejected: starting from an empty connection set,
`addConnection` with a self-loop input appends it, so the connection set
changes. -/
theorem addConnection_selfLoop_counterexample :
    (addConnection ⟨[], []⟩ ⟨"a", "output-0", "a", "input-0", none⟩ "c1").connections
      = [⟨"c1", "a", "output-0", "a", "input-0", none⟩] ∧
    ([⟨"c1", "a", "output-0", "a", "input-0", none⟩] : List Connection) ≠ [] := by
  decide

/-- C5 (amended).  Duplicate connections (same source port and same target
port as an existing connection) are silently rejected as a no-op, the
whole state being returned unchanged; self-loops are NOT rejected — a
self-loop that is not such a duplicate is added to the connection set like
any other connection. -/
theorem addConnection_duplicate_noop_selfLoop_added
    (st : WorkflowState) (conn : ConnectionInput) (newId : String) :
    ((∃ c ∈ st.connections, c.sourceNodeId = conn.sourceNodeId ∧
        c.sourcePortId = conn.sourcePortId ∧ c.targetNodeId = conn.targetNodeId ∧
        c.targetPortId = conn.targetPortId) →
      addConnection st conn newId = st) ∧
    (conn.sourceNodeId = conn.targetNodeId →
      (∀ c ∈ st.connections, ¬(c.sourceNodeId = conn.sourceNodeId ∧
        c.sourcePortId = conn.sourcePortId ∧ c.targetNodeId = conn.targetNodeId ∧
        c.targetPortId = conn.targetPortId)) →
      mkConnection conn newId ∈ (addConnection st conn newId).connections) := by
  constructor
  · intro hdup
    unfold addConnection
    have h : st.connections.any (fun c =>
        c.sourceNodeId == conn.sourceNodeId && c.sourcePortId == conn.sourcePortId &&
        c.targetNodeId == conn.targetNodeId && c.targetPortId == conn.targetPortId)
        = true := by
      rw [List.any_eq_true]
      obtain ⟨c, hc, h1, h2, h3, h4⟩ := hdup
      exact ⟨c, hc, by simp [h1, h2, h3, h4]⟩
    simp [h]
  · intro _ hnodup
    unfold addConnection
    have h : st.connections.any (fun c =>
        c.sourceNodeId == conn.sourceNodeId && c.sourcePortId == conn.sourcePortId &&
        c.targetNodeId == conn.targetNodeId && c.targetPortId == conn.targetPortId)
        = false := by
      rw [List.any_eq_false]
      intro c hc
      have := hnodup c hc
      simp only [Bool.and_eq_true, beq_iff_eq]
      tauto
    simp only [h, Bool.false_eq_true, if_false]
    apply List.mem_append_right
    simp [mkConnection]

/-- C5 (witness). -/
theorem addConnection_duplicate_noop_selfLoop_added_witness :
    (addConnection ⟨[], [⟨"c1", "a", "output-0", "b", "input-0", none⟩]⟩
      ⟨"a", "output-0", "b", "input-0", none⟩ "c2")
      = ⟨[], [⟨"c1", "a", "output-0", "b", "input-0", none⟩]⟩ ∧
    (⟨"c9", "a", "output-0", "a", "input-0", none⟩ : Connection) ∈
      (addConnection ⟨[], []⟩ ⟨"a", "output-0", "a", "input-0", none⟩ "c9").connections := by
  constructor
  · exact (addConnection_duplicate_noop_selfLoop_added
      ⟨[], [⟨"c1", "a", "output-0", "b", "input-0", none⟩]⟩
      ⟨"a", "output-0", "b", "input-0", none⟩ "c2").1
      ⟨⟨"c1", "a", "output-0", "b", "input-0", none⟩, by decide, by decide,
        by decide, by decide, by decide⟩
  · exact (addConnection_duplicate_noop_selfLoop_added
      ⟨[], []⟩ ⟨"a", "output-0", "a", "input-0", none⟩ "c9").2
      (by decide) (by decide)

/-- C6 (counterexample).  Replacement scenario: node `s1` has its only
output port cached as connected and is the source of the sole connection
into `(t, input-0)`; `addConnection` then connects `s2` to that occupied
input, which removes the prior connection.  The claim requires the
replaced connection's source output flag to be recomputed (here: cleared,
since no remaining connection originates from `(s1, output-0)`); the code
leaves it `true`. -/
theorem addConnection_replaced_source_flag_counterexample :
    ((addConnection
        ⟨[⟨"s1", "k", (0, 0), [], [], [⟨"output-0", "out", "any", true, false⟩], none⟩,
          ⟨"s2", "k", (0, 0), [], [], [⟨"output-0", "out", "any", false, false⟩], none⟩,
          ⟨"t", "k", (0, 0), [], [⟨"input-0", "in", "any", true, false⟩], [], none⟩],
          [⟨"c1", "s1", "output-0", "t", "input-0", none⟩]⟩
        ⟨"s2", "output-0", "t", "input-0", none⟩ "c2").connections.all
      (fun c => !(c.sourceNodeId == "s1" && c.sourcePortId == "output-0")) = true) ∧
    (((addConnection
        ⟨[⟨"s1", "k", (0, 0), [], [], [⟨"output-0", "out", "any", true, false⟩], none⟩,
          ⟨"s2", "k", (0, 0), [], [], [⟨"output-0", "out", "any", false, false⟩], none⟩,
          ⟨"t", "k", (0, 0), [], [⟨"input-0", "in", "any", true, false⟩], [], none⟩],
          [⟨"c1", "s1", "output-0", "t", "input-0", none⟩]⟩
        ⟨"s2", "output-0", "t", "input-0", none⟩ "c2").nodes.find?
      (fun n => n.id == "s1")).map (fun n => n.outputs.map Port.connected)
      = some [true]) := by
  decide

/-- C6 (amended).  `addConnection` never recomputes the `connected` flag of
the replaced connection's source output: every node that is not an
endpoint of the newly added connection is carried over completely
unchanged (its stale flags included); only `removeConnection` recomputes
flags on replacement the code does not perform. -/
theorem addConnection_untouched_node_frame
    (st : WorkflowState) (conn : ConnectionInput) (newId : String)
    (n : NodeInstance) (hn : n ∈ st.nodes)
    (hs : n.id ≠ conn.sourceNodeId) (ht : n.id ≠ conn.targetNodeId) :
    n ∈ (addConnection st conn newId).nodes := by
  have hs2 : (n.id == conn.sourceNodeId) = false := by simp [hs]
  have ht2 : (n.id == conn.targetNodeId) = false := by simp [ht]
  by_cases hdup : (st.connections.any (fun c =>
      c.sourceNodeId == conn.sourceNodeId && c.sourcePortId == conn.sourcePortId &&
      c.targetNodeId == conn.targetNodeId && c.targetPortId == conn.targetPortId)) = true
  · simp only [addConnection, hdup, if_true]
    exact hn
  · have hdupf : (st.connections.any (fun c =>
        c.sourceNodeId == conn.sourceNodeId && c.sourcePortId == conn.sourcePortId &&
        c.targetNodeId == conn.targetNodeId && c.targetPortId == conn.targetPortId))
        = false := by simpa using hdup
    simp only [addConnection, hdupf, Bool.false_eq_true, if_false]
    exact List.mem_map.mpr ⟨n, hn, by simp [hs2, ht2]⟩

/-- C6 (witness). -/
theorem addConnection_untouched_node_frame_witness :
    (⟨"s1", "k", (0, 0), [], [], [⟨"output-0", "out", "any", true, false⟩], none⟩ :
      NodeInstance) ∈ (addConnection
        ⟨[⟨"s1", "k", (0, 0), [], [], [⟨"output-0", "out", "any", true, false⟩], none⟩],
          [⟨"c1", "s1", "output-0", "t", "input-0", none⟩]⟩
        ⟨"s2", "output-0", "t", "input-0", none⟩ "c2").nodes :=
  addConnection_untouched_node_frame _ _ _ _ (by decide) (by decide) (by decide)

/-- C8 (counterexample).  A graph may hold a connection whose target id is
no node's id (such states are loadable via `loadWorkflow` /
`importWorkflow`, which accept arbitrary connection arrays).  Removing
that unknown id is then not a no-op: the node list is unchanged but the
dangling connection is filtered out. -/
theorem removeNode_unknown_id_counterexample :
    (((⟨[⟨"a", "ka", (0, 0), [], [], [], none⟩],
        [⟨"c4", "a", "output-0", "x", "input-0", none⟩]⟩ :
        WorkflowState).nodes.all (fun n => !(n.id == "x"))) = true) ∧
    ((removeNode
        ⟨[⟨"a", "ka", (0, 0), [], [], [], none⟩],
          [⟨"c4", "a", "output-0", "x", "input-0", none⟩]⟩ "x").connections = []) ∧
    (([⟨"c4", "a", "output-0", "x", "input-0", none⟩] : List Connection) ≠ []) := by
  decide

/-- C8 (amended).  `removeNode` keeps exactly the nodes whose id differs
from the removed id and exactly the connections referencing it neither as
source nor as target; consequently it is a no-op for an id that is neither
a node id nor referenced by any connection (an unknown id that dangling
connections reference still loses those connections). -/
theorem removeNode_removes_node_and_touching_connections
    (st : WorkflowState) (nodeId : String) :
    (∀ n, n ∈ (removeNode st nodeId).nodes ↔ (n ∈ st.nodes ∧ n.id ≠ nodeId)) ∧
    (∀ c, c ∈ (removeNode st nodeId).connections ↔
      (c ∈ st.connections ∧ c.sourceNodeId ≠ nodeId ∧ c.targetNodeId ≠ nodeId)) ∧
    ((∀ n ∈ st.nodes, n.id ≠ nodeId) →
      (∀ c ∈ st.connections, c.sourceNodeId ≠ nodeId ∧ c.targetNodeId ≠ nodeId) →
      removeNode st nodeId = st) := by
  refine ⟨?_, ?_, ?_⟩
  · intro n
    simp [removeNode, List.mem_filter]
  · intro c
    simp [removeNode, List.mem_filter]
  · intro hn hc
    unfold removeNode
    have e1 : st.nodes.filter (fun n => !(n.id == nodeId)) = st.nodes := by
      apply List.filter_eq_self.mpr
      intro n hmem
      simp [hn n hmem]
    have e2 : st.connections.filter (fun c =>
        !(c.sourceNodeId == nodeId) && !(c.targetNodeId == nodeId)) = st.connections := by
      apply List.filter_eq_self.mpr
      intro c hmem
      have := hc c hmem
      simp [this.1, this.2]
    rw [e1, e2]

/-- C8 (witness). -/
theorem removeNode_removes_node_and_touching_connections_witness :
    removeNode ⟨[⟨"a", "ka", (0, 0), [], [], [], none⟩],
      [⟨"c1", "a", "output-0", "a", "input-0", none⟩]⟩ "z"
      = ⟨[⟨"a", "ka", (0, 0), [], [], [], none⟩],
      [⟨"c1", "a", "output-0", "a", "input-0", none⟩]⟩ :=
  (removeNode_removes_node_and_touching_connections _ "z").2.2
    (by decide) (by decide)

/-! ## Verification of the topological sort -/

section JsMapLemmas

variable {K A : Type} [BEq K] [LawfulBEq K]

theorem find?_map_update_ne (m : List (K × A)) (k : K) (v : A) (k' : K)
    (hne : k' ≠ k) :
    (m.map (fun p => if p.1 == k then (k, v) else p)).find? (fun p => p.1 == k')
      = m.find? (fun p => p.1 == k') := by
  induction m with
  | nil => simp
  | cons p rest ih =>
    by_cases hpk : (p.1 == k) = true
    · have hp : p.1 = k := by simpa using hpk
      have h1 : (k == k') = false := by simp [Ne.symm hne]
      have h2 : (p.1 == k') = false := by rw [hp]; exact h1
      simp only [List.map_cons, hpk, if_true, List.find?_cons, h1, h2, ih]
    · have hf : (p.1 == k) = false := by simpa using hpk
      by_cases hpk' : (p.1 == k') = true
      · simp only [List.map_cons, hf, Bool.false_eq_true, if_false,
          List.find?_cons, hpk']
      · have hf' : (p.1 == k') = false := by simpa using hpk'
        simp only [List.map_cons, hf, Bool.false_eq_true, if_false,
          List.find?_cons, hf', ih]

theorem find?_map_update_self (m : List (K × A)) (k : K) (v : A) :
    (m.map (fun p => if p.1 == k then (k, v) else p)).find? (fun p => p.1 == k)
      = (m.find? (fun p => p.1 == k)).map (fun _ => (k, v)) := by
  induction m with
  | nil => simp
  | cons p rest ih =>
    by_cases hpk : (p.1 == k) = true
    · simp only [List.map_cons, hpk, if_true, List.find?_cons, beq_self_eq_true]
      simp
    · have hf : (p.1 == k) = false := by simpa using hpk
      simp only [List.map_cons, hf, Bool.false_eq_true, if_false,
        List.find?_cons, ih]

theorem jsMapGet_jsMapSet [DecidableEq K] (m : List (K × A)) (k : K) (v : A) (k' : K) :
    jsMapGet (jsMapSet m k v) k' = if k' = k then some v else jsMapGet m k' := by
  unfold jsMapSet jsMapGet
  by_cases hany : (m.any fun p => p.1 == k) = true
  · simp only [hany, if_true]
    by_cases hk : k' = k
    · subst hk
      rw [find?_map_update_self]
      obtain ⟨p, hp, hpk⟩ := List.any_eq_true.mp hany
      have : (m.find? (fun p => p.1 == k')).isSome := by
        rw [List.find?_isSome]
        exact ⟨p, hp, hpk⟩
      obtain ⟨q, hq⟩ := Option.isSome_iff_exists.mp this
      simp [hq]
    · rw [find?_map_update_ne m k v k' hk]
      simp [hk]
  · have hanyf : (m.any fun p => p.1 == k) = false := Bool.eq_false_iff.mpr hany
    simp only [hanyf, Bool.false_eq_true, if_false]
    rw [List.find?_append]
    by_cases hk : k' = k
    · subst hk
      have hnone : m.find? (fun p => p.1 == k') = none := by
        rw [List.find?_eq_none]
        intro p hp
        have := (List.any_eq_false.mp hanyf) p hp
        simpa using this
      simp [hnone]
    · have h1 : (k == k') = false := by simp [Ne.symm hk]
      simp [List.find?_cons, h1, hk]

/-- Keys of a map after `jsMapSet`. -/
theorem jsMapSet_keys (m : List (K × A)) (k : K) (v : A) :
    (jsMapSet m k v).map Prod.fst = m.map Prod.fst ∨
    (jsMapSet m k v).map Prod.fst = m.map Prod.fst ++ [k] := by
  unfold jsMapSet
  by_cases hany : (m.any fun p => p.1 == k) = true
  · left
    simp only [hany, if_true, List.map_map]
    apply List.map_congr_left
    intro p _
    by_cases hpk : (p.1 == k) = true
    · have : p.1 = k := by simpa using hpk
      simp [hpk, this]
    · have hne : p.1 ≠ k := by simpa using hpk
      simp [hne]
  · right
    have hanyf : (m.any fun p => p.1 == k) = false := Bool.eq_false_iff.mpr hany
    simp [hanyf]

/-- A found value in a map with unique keys is the value of the unique
entry with that key. -/
theorem jsMapGet_of_mem_nodup (m : List (K × A)) (k : K) (v : A)
    (hnd : (m.map Prod.fst).Nodup) (hmem : (k, v) ∈ m) :
    jsMapGet m k = some v := by
  unfold jsMapGet
  induction m with
  | nil => simp at hmem
  | cons p rest ih =>
    rcases List.mem_cons.mp hmem with heq | htail
    · subst heq
      simp
    · have hk : (p.1 == k) = false := by
        have hpk : p.1 ≠ k := by
          intro hcontra
          have : k ∈ rest.map Prod.fst := by
            exact List.mem_map.mpr ⟨(k, v), htail, rfl⟩
          rw [List.map_cons, List.nodup_cons] at hnd
          exact hnd.1 (hcontra ▸ this)
        simp [hpk]
      simp only [List.find?_cons, hk]
      exact ih (by rw [List.map_cons, List.nodup_cons] at hnd; exact hnd.2) htail

end JsMapLemmas

theorem degGetD_degSet (m : DegMap) (k : String) (v : Int) (k' : String) (d : Int) :
    degGetD (degSet m k v) k' d = if k' = k then v else degGetD m k' d := by
  unfold degGetD degSet
  rw [jsMapGet_jsMapSet]
  by_cases h : k' = k <;> simp [h, degGetD]

theorem adjGetD_adjSet (m : AdjMap) (k : String) (v : List String) (k' : String) :
    adjGetD (adjSet m k v) k' = if k' = k then v else adjGetD m k' := by
  unfold adjGetD adjSet
  rw [jsMapGet_jsMapSet]
  by_cases h : k' = k <;> simp [h, adjGetD]

theorem decTargets_deg (ts : List String) :
    ∀ (deg : DegMap) (t : String),
      degGetD (decTargets deg ts).1 t 0 = degGetD deg t 0 - (ts.count t : Int) := by
  induction ts with
  | nil => intro deg t; simp [decTargets]
  | cons t0 rest ih =>
    intro deg t
    show degGetD (decTargets (degSet deg t0 (degGetD deg t0 0 - 1)) rest).1 t 0 = _
    rw [ih]
    rw [degGetD_degSet]
    by_cases h : t = t0
    · subst h
      simp [List.count_cons]
      omega
    · have : (t0 == t) = false := by simp [Ne.symm h]
      simp [h, List.count_cons, this]

theorem decTargets_zs_mem (ts : List String) :
    ∀ (deg : DegMap) (t : String),
      t ∈ (decTargets deg ts).2 ↔
        (t ∈ ts ∧ 1 ≤ degGetD deg t 0 ∧ degGetD deg t 0 ≤ (ts.count t : Int)) := by
  induction ts with
  | nil => intro deg t; simp [decTargets]
  | cons t0 rest ih =>
    intro deg t
    show t ∈ ((if degGetD deg t0 0 - 1 = 0 then [t0] else []) ++
      (decTargets (degSet deg t0 (degGetD deg t0 0 - 1)) rest).2) ↔ _
    rw [List.mem_append, ih]
    rw [degGetD_degSet]
    by_cases h : t = t0
    · subst h
      have hcnt : ((t :: rest).count t : Int) = (rest.count t : Int) + 1 := by
        simp [List.count_cons]
      constructor
      · intro hmem
        rcases hmem with hpre | hrest
        · have : degGetD deg t 0 - 1 = 0 := by
            by_contra hne
            simp [hne] at hpre
          refine ⟨List.mem_cons_self _ _, by omega, by omega⟩
        · simp only [if_pos rfl] at hrest
          obtain ⟨hr, h1, h2⟩ := hrest
          refine ⟨List.mem_cons_self _ _, by omega, by omega⟩
      · rintro ⟨-, h1, h2⟩
        by_cases hd : degGetD deg t 0 = 1
        · left
          simp [hd]
        · right
          simp only [if_pos rfl, if_true, eq_self_iff_true]
          have hge : 2 ≤ degGetD deg t 0 := by omega
          have hcnt2 : 1 ≤ (rest.count t : Int) := by omega
          have hmem : t ∈ rest := by
            rw [← List.count_pos_iff]
            exact_mod_cast hcnt2
          refine ⟨hmem, ?_, ?_⟩ <;> omega
    · have hne : (degGetD deg t0 0 - 1 = 0 → t ∉ [t0]) := by
        intro _ hmem
        simp at hmem
        exact h hmem
      have hcnt : ((t0 :: rest).count t : Int) = (rest.count t : Int) := by
        have : (t0 == t) = false := by simp [Ne.symm h]
        simp [List.count_cons, this]
      constructor
      · intro hmem
        rcases hmem with hpre | hrest
        · by_cases hd : degGetD deg t0 0 - 1 = 0
          · exact absurd (by simpa [hd] using hpre) (fun hh => h hh)
          · simp [hd] at hpre
        · simp only [if_neg h] at hrest
          obtain ⟨hr, h1, h2⟩ := hrest
          exact ⟨List.mem_cons_of_mem _ hr, h1, by omega⟩
      · rintro ⟨hmem, h1, h2⟩
        right
        have hmem' : t ∈ rest := by
          rcases List.mem_cons.mp hmem with he | ht
          · exact absurd he h
          · exact ht
        simp only [if_neg h]
        exact ⟨hmem', h1, by omega⟩

theorem decTargets_zs_nodup (ts : List String) :
    ∀ deg : DegMap, (decTargets deg ts).2.Nodup := by
  induction ts with
  | nil => intro deg; simp [decTargets]
  | cons t0 rest ih =>
    intro deg
    show ((if degGetD deg t0 0 - 1 = 0 then [t0] else []) ++
      (decTargets (degSet deg t0 (degGetD deg t0 0 - 1)) rest).2).Nodup
    by_cases hd : degGetD deg t0 0 - 1 = 0
    · simp only [if_pos hd]
      rw [List.nodup_append]
      refine ⟨List.nodup_singleton _, ih _, ?_⟩
      intro a ha hb
      have ha' : a = t0 := by simpa using ha
      subst ha'
      rw [decTargets_zs_mem] at hb
      rw [degGetD_degSet] at hb
      simp [hd] at hb
    · simp only [if_neg hd, List.nil_append]
      exact ih _

section CountLemmas

variable {α : Type}

theorem filterLengthMono (l : List α) (p q : α → Bool)
    (h : ∀ a ∈ l, p a = true → q a = true) :
    (l.filter p).length ≤ (l.filter q).length := by
  induction l with
  | nil => simp
  | cons a rest ih =>
    have ih' := ih (fun b hb => h b (List.mem_cons_of_mem _ hb))
    rw [List.filter_cons, List.filter_cons]
    by_cases hp : p a = true
    · rw [if_pos hp, if_pos (h a (List.mem_cons_self _ _) hp)]
      simpa using ih'
    · rw [if_neg hp]
      by_cases hqa : q a = true
      · rw [if_pos hqa]
        simp only [List.length_cons]
        omega
      · rw [if_neg hqa]
        exact ih'

theorem filterLengthLtOfWitness (l : List α) (p q : α → Bool)
    (h : ∀ a ∈ l, p a = true → q a = true) (a : α) (ha : a ∈ l)
    (hqa : q a = true) (hpa : p a = false) :
    (l.filter p).length < (l.filter q).length := by
  induction l with
  | nil => simp at ha
  | cons b rest ih =>
    have hmono := filterLengthMono rest p q (fun x hx => h x (List.mem_cons_of_mem _ hx))
    rw [List.filter_cons, List.filter_cons]
    rcases List.mem_cons.mp ha with hb | htail
    · subst hb
      rw [if_neg (by simp [hpa]), if_pos hqa]
      simp only [List.length_cons]
      omega
    · have ih' := ih (fun x hx => h x (List.mem_cons_of_mem _ hx)) htail
      by_cases hp : p b = true
      · rw [if_pos hp, if_pos (h b (List.mem_cons_self _ _) hp)]
        simpa using ih'
      · rw [if_neg hp]
        by_cases hqb : q b = true
        · rw [if_pos hqb]
          simp only [List.length_cons]
          omega
        · rw [if_neg hqb]
          exact ih'

theorem allOfFilterLengthGe (l : List α) (p q : α → Bool)
    (h : ∀ a ∈ l, p a = true → q a = true)
    (hge : (l.filter q).length ≤ (l.filter p).length) :
    ∀ a ∈ l, q a = true → p a = true := by
  intro a ha hqa
  by_contra hpa
  have hpa' : p a = false := by simpa using hpa
  have := filterLengthLtOfWitness l p q h a ha hqa hpa'
  omega

theorem existsOfFilterLengthLt (l : List α) (p q : α → Bool)
    (hlt : (l.filter p).length < (l.filter q).length) :
    ∃ a ∈ l, q a = true ∧ p a = false := by
  by_contra hno
  push_neg at hno
  have : ∀ a ∈ l, q a = true → p a = true := by
    intro a ha hqa
    have := hno a ha hqa
    simpa using this
  have := filterLengthMono l q p this
  omega

end CountLemmas

theorem paidCount_nil (conns : List Connection) (t : String) :
    paidCount conns [] t = 0 := by
  unfold paidCount
  simp

theorem paidCount_le_inCount (conns : List Connection) (done : List String)
    (t : String) : paidCount conns done t ≤ inCount conns t := by
  unfold paidCount inCount
  apply filterLengthMono
  intro c _ hc
  simp only [Bool.and_eq_true] at hc
  exact hc.1

theorem paidCount_append_single (conns : List Connection) (done : List String)
    (q t : String) (hq : q ∉ done) :
    paidCount conns (done ++ [q]) t = paidCount conns done t + edgeCount conns q t := by
  unfold paidCount edgeCount
  induction conns with
  | nil => simp
  | cons c cs ih =>
    rw [List.filter_cons, List.filter_cons, List.filter_cons]
    by_cases htgt : (c.targetNodeId == t) = true
    · by_cases hsrc : c.sourceNodeId ∈ done
      · have h1 : done.contains c.sourceNodeId = true := List.elem_iff.mpr hsrc
        have h2 : (done ++ [q]).contains c.sourceNodeId = true :=
          List.elem_iff.mpr (List.mem_append_left _ hsrc)
        have hne : c.sourceNodeId ≠ q := fun h => hq (h ▸ hsrc)
        have h3 : (c.sourceNodeId == q) = false := by simp [hne]
        simp only [htgt, h1, h2, h3, Bool.and_true, Bool.true_and, Bool.and_false,
          Bool.false_and, Bool.false_eq_true, if_true, if_false, List.length_cons]
        omega
      · by_cases hq2 : c.sourceNodeId = q
        · have h2 : (done ++ [q]).contains c.sourceNodeId = true :=
            List.elem_iff.mpr (List.mem_append_right _ (by simp [hq2]))
          have h1 : done.contains c.sourceNodeId = false := by
            rw [Bool.eq_false_iff]
            intro hcontra
            exact hsrc (List.elem_iff.mp hcontra)
          have h3 : (c.sourceNodeId == q) = true := by simp [hq2]
          simp only [htgt, h1, h2, h3, Bool.and_true, Bool.true_and, Bool.and_false,
            Bool.false_and, Bool.false_eq_true, if_true, if_false, List.length_cons]
          omega
        · have h1 : done.contains c.sourceNodeId = false := by
            rw [Bool.eq_false_iff]
            intro hcontra
            exact hsrc (List.elem_iff.mp hcontra)
          have h2 : (done ++ [q]).contains c.sourceNodeId = false := by
            rw [Bool.eq_false_iff]
            intro hcontra
            rcases List.mem_append.mp (List.elem_iff.mp hcontra) with h | h
            · exact hsrc h
            · exact hq2 (by simpa using h)
          have h3 : (c.sourceNodeId == q) = false := by simp [hq2]
          simp only [htgt, h1, h2, h3, Bool.and_true, Bool.true_and, Bool.and_false,
            Bool.false_and, if_true, if_false]
          exact ih
    · have htgtf : (c.targetNodeId == t) = false := by simpa using htgt
      by_cases hsq : (c.sourceNodeId == q) = true
      · simp only [htgtf, Bool.false_and, Bool.and_false, if_false, hsq, Bool.true_and]
        exact ih
      · have hsqf : (c.sourceNodeId == q) = false := by simpa using hsq
        simp only [htgtf, Bool.false_and, Bool.and_false, if_false, hsqf]
        exact ih

theorem edgeCount_targetsOf_count (conns : List Connection) (q t : String) :
    (targetsOf conns q).count t = edgeCount conns q t := by
  unfold targetsOf edgeCount
  induction conns with
  | nil => simp
  | cons c cs ih =>
    rw [List.filter_cons, List.filter_cons]
    by_cases hsrc : (c.sourceNodeId == q) = true
    · rw [if_pos hsrc]
      by_cases htgt : (c.targetNodeId == t) = true
      · have : (c.sourceNodeId == q && c.targetNodeId == t) = true := by
          simp [hsrc, htgt]
        rw [if_pos this]
        simp only [List.map_cons, List.count_cons, ih]
        have : (c.targetNodeId == t) = true := htgt
        simp [this]
      · have htgtf : (c.targetNodeId == t) = false := by simpa using htgt
        have : (c.sourceNodeId == q && c.targetNodeId == t) = false := by
          simp [htgtf]
        rw [if_neg (by simp [this])]
        simp only [List.map_cons, List.count_cons, ih]
        simp [htgtf]
    · have hsrcf : (c.sourceNodeId == q) = false := by simpa using hsrc
      rw [if_neg (by simp [hsrcf]), if_neg (by simp [hsrcf])]
      exact ih

theorem targetsOf_subset_targets (conns : List Connection) (q t : String)
    (h : t ∈ targetsOf conns q) : t ∈ conns.map (fun c => c.targetNodeId) := by
  unfold targetsOf at h
  obtain ⟨c, hc, rfl⟩ := List.mem_map.mp h
  exact List.mem_map.mpr ⟨c, (List.mem_filter.mp hc).1, rfl⟩

theorem before_append (res ext : List String) (a b : String)
    (h : before res a b) : before (res ++ ext) a b := by
  obtain ⟨i, j, hij, hi, hj⟩ := h
  refine ⟨i, j, hij, ?_, ?_⟩
  · rw [List.get?_append (List.get?_eq_some.mp hi).1]
    exact hi
  · rw [List.get?_append (List.get?_eq_some.mp hj).1]
    exact hj

theorem before_append_last (res : List String) (q a : String) (ha : a ∈ res) :
    before (res ++ [q]) a q := by
  obtain ⟨i, hi⟩ := List.get?_of_mem ha
  refine ⟨i, res.length, (List.get?_eq_some.mp hi).1, ?_, ?_⟩
  · rw [List.get?_append (List.get?_eq_some.mp hi).1]
    exact hi
  · rw [List.get?_append_right (Nat.le_refl _)]
    simp

theorem before_trans (res : List String) (hnd : res.Nodup) (a b c : String)
    (h1 : before res a b) (h2 : before res b c) : before res a c := by
  obtain ⟨i, j, hij, hi, hj⟩ := h1
  obtain ⟨i', j', hij', hi', hj'⟩ := h2
  have hjeq : j = i' := by
    apply List.get?_inj (List.get?_eq_some.mp hj).1 hnd
    rw [hj, hi']
  exact ⟨i, j', by omega, hi, hj'⟩

theorem before_mem_left (res : List String) (a b : String) (h : before res a b) :
    a ∈ res := by
  obtain ⟨i, _, _, hi, _⟩ := h
  exact List.get?_mem hi

theorem before_irrefl (res : List String) (hnd : res.Nodup) (a : String) :
    ¬ before res a a := by
  rintro ⟨i, j, hij, hi, hj⟩
  have : i = j := by
    apply List.get?_inj (List.get?_eq_some.mp hi).1 hnd
    rw [hi, hj]
  omega

theorem kahnLoop_resultOK (nodes : List NodeInstance) (conns : List Connection)
    (adj : AdjMap) (hadj : ∀ s, adjGetD adj s = targetsOf conns s) :
    ∀ (fuel : Nat) (queue : List String) (deg : DegMap) (res : List String),
    KahnInv nodes conns queue deg res →
    (kahnLoop adj fuel queue deg res).Nodup ∧
    (∀ c ∈ conns, c.targetNodeId ∈ kahnLoop adj fuel queue deg res →
      before (kahnLoop adj fuel queue deg res) c.sourceNodeId c.targetNodeId) ∧
    (∀ v ∈ kahnLoop adj fuel queue deg res,
      v ∈ nodes.map NodeInstance.id ∨ v ∈ conns.map Connection.targetNodeId) := by
  intro fuel
  induction fuel with
  | zero =>
    intro queue deg res inv
    show res.Nodup ∧ _ ∧ _
    exact ⟨inv.nodup.of_append_left, fun c hc ht => inv.ordered c hc ht,
      fun v hv => inv.domain v (Or.inl hv)⟩
  | succ fuel ih =>
    intro queue deg res inv
    match queue with
    | [] =>
      show res.Nodup ∧ _ ∧ _
      exact ⟨inv.nodup.of_append_left, fun c hc ht => inv.ordered c hc ht,
        fun v hv => inv.domain v (Or.inl hv)⟩
    | q :: rest =>
      show ((kahnLoop adj fuel (rest ++ (decTargets deg (adjGetD adj q)).2)
        (decTargets deg (adjGetD adj q)).1 (res ++ [q])).Nodup ∧ _ ∧ _)
      apply ih
      -- notation for the step
      set ts := targetsOf conns q with hts
      rw [hadj q]
      set deg' := (decTargets deg ts).1 with hdeg'
      set zs := (decTargets deg ts).2 with hzs
      -- facts from the old invariant
      have hresq : ((res ++ [q]) ++ rest).Nodup := by
        have : res ++ q :: rest = (res ++ [q]) ++ rest := by simp
        exact this ▸ inv.nodup
      have hqres : q ∉ res := by
        have hd := List.disjoint_of_nodup_append inv.nodup
        intro hc
        exact hd hc (List.mem_cons_self _ _)
      have hqrest : q ∉ rest := by
        have := inv.nodup.of_append_right
        rw [List.nodup_cons] at this
        exact this.1
      -- new degree accounting
      have degacc' : ∀ t, degGetD deg' t 0 =
          (inCount conns t : Int) - (paidCount conns (res ++ [q]) t : Int) := by
        intro t
        rw [hdeg', decTargets_deg, inv.degacc t, edgeCount_targetsOf_count,
          paidCount_append_single conns res q t hqres]
        push_cast
        ring
      -- freshness of the newly enqueued ids
      have hfresh : ∀ t ∈ zs, t ∉ res ∧ t ≠ q ∧ t ∉ rest := by
        intro t htz
        have hm := (decTargets_zs_mem ts deg t).mp htz
        have hpaidlt : paidCount conns res t < inCount conns t := by
          have := inv.degacc t
          omega
        obtain ⟨c, hc, hqc, hpc⟩ :=
          existsOfFilterLengthLt conns
            (fun c => c.targetNodeId == t && res.contains c.sourceNodeId)
            (fun c => c.targetNodeId == t) hpaidlt
        have htc : c.targetNodeId = t := by simpa using hqc
        have hsrc : c.sourceNodeId ∉ res := by
          intro hmem
          rw [hqc, Bool.true_and] at hpc
          rw [Bool.eq_false_iff] at hpc
          exact hpc (List.elem_iff.mpr hmem)
        refine ⟨?_, ?_, ?_⟩
        · intro hmem
          exact hsrc (inv.paid_full c hc (Or.inl (htc ▸ hmem)))
        · intro hmem
          exact hsrc (inv.paid_full c hc (Or.inr (htc ▸ hmem ▸ List.mem_cons_self q rest)))
        · intro hmem
          exact hsrc (inv.paid_full c hc (Or.inr (htc ▸ List.mem_cons_of_mem q hmem)))
      refine ⟨?_, degacc', ?_, ?_, ?_⟩
      · -- nodup
        rw [List.nodup_append]
        refine ⟨hresq.of_append_left, ?_, ?_⟩
        · rw [List.nodup_append]
          refine ⟨hresq.of_append_right, decTargets_zs_nodup ts deg, ?_⟩
          intro a ha hb
          exact (hfresh a hb).2.2 ha
        · intro a ha hb
          rcases List.mem_append.mp hb with hb1 | hb2
          · have hd := List.disjoint_of_nodup_append hresq
            exact hd ha hb1
          · rcases List.mem_append.mp ha with ha1 | ha2
            · exact (hfresh a hb2).1 ha1
            · exact (hfresh a hb2).2.1 (by simpa using ha2)
      · -- ordered
        intro c hc htgt
        rcases List.mem_append.mp htgt with h1 | h2
        · exact before_append res [q] _ _ (inv.ordered c hc h1)
        · have hq : c.targetNodeId = q := by simpa using h2
          have hsrc : c.sourceNodeId ∈ res :=
            inv.paid_full c hc (Or.inr (hq ▸ List.mem_cons_self q rest))
          rw [hq]
          exact before_append_last res q _ hsrc
      · -- paid_full
        intro c hc htgt
        rcases htgt with h1 | h2
        · rcases List.mem_append.mp h1 with ha | hb
          · exact List.mem_append_left _ (inv.paid_full c hc (Or.inl ha))
          · have hq : c.targetNodeId = q := by simpa using hb
            exact List.mem_append_left _
              (inv.paid_full c hc (Or.inr (hq ▸ List.mem_cons_self q rest)))
        · rcases List.mem_append.mp h2 with ha | hb
          · exact List.mem_append_left _
              (inv.paid_full c hc (Or.inr (List.mem_cons_of_mem q ha)))
          · -- target newly reached zero: all its sources are now emitted
            set t := c.targetNodeId with htt
            have hm := (decTargets_zs_mem ts deg t).mp hb
            have hdeg0 : degGetD deg' t 0 ≤ 0 := by
              rw [hdeg', decTargets_deg]
              omega
            have hple := paidCount_le_inCount conns (res ++ [q]) t
            have hpaid : paidCount conns (res ++ [q]) t = inCount conns t := by
              have := degacc' t
              omega
            have hall := allOfFilterLengthGe conns
              (fun c => c.targetNodeId == t && (res ++ [q]).contains c.sourceNodeId)
              (fun c => c.targetNodeId == t)
              (by intro a _ hpa; simp only [Bool.and_eq_true] at hpa; exact hpa.1)
              (by unfold paidCount inCount at hpaid; omega)
            have := hall c hc (by simp)
            simp only [Bool.and_eq_true] at this
            exact List.elem_iff.mp this.2
      · -- domain
        intro v hv
        rcases hv with h1 | h2
        · rcases List.mem_append.mp h1 with ha | hb
          · exact inv.domain v (Or.inl ha)
          · have : v = q := by simpa using hb
            exact inv.domain v (Or.inr (this ▸ List.mem_cons_self q rest))
        · rcases List.mem_append.mp h2 with ha | hb
          · exact inv.domain v (Or.inr (List.mem_cons_of_mem q ha))
          · have := ((decTargets_zs_mem ts deg v).mp hb).1
            exact Or.inr (targetsOf_subset_targets conns q v this)

section JsMapKeyLemmas

variable {K A : Type} [BEq K] [LawfulBEq K]

theorem jsMapSet_keys_nodup (m : List (K × A)) (k : K) (v : A)
    (h : (m.map Prod.fst).Nodup) : ((jsMapSet m k v).map Prod.fst).Nodup := by
  unfold jsMapSet
  by_cases hany : (m.any fun p => p.1 == k) = true
  · simp only [hany, if_true, List.map_map]
    have hcomp : (Prod.fst ∘ fun p : K × A => if p.1 == k then (k, v) else p)
        = Prod.fst := by
      funext p
      by_cases hpk : (p.1 == k) = true
      · have h2 : p.1 = k := by simpa using hpk
        simp [hpk, h2]
      · have hf : (p.1 == k) = false := by simpa using hpk
        simp [hf]
    rw [hcomp]
    exact h
  · have hanyf : (m.any fun p => p.1 == k) = false := Bool.eq_false_iff.mpr hany
    simp only [hanyf, Bool.false_eq_true, if_false, List.map_append, List.map_cons,
      List.map_nil]
    rw [List.nodup_append]
    refine ⟨h, List.nodup_singleton _, ?_⟩
    intro a ha hb
    have hak : a = k := by simpa using hb
    subst hak
    obtain ⟨p, hp, hfst⟩ := List.mem_map.mp ha
    have := (List.any_eq_false.mp hanyf) p hp
    rw [hfst] at this
    simp at this

theorem jsMapSet_keys_sub (m : List (K × A)) (k : K) (v : A) :
    ∀ k' ∈ (jsMapSet m k v).map Prod.fst, k' ∈ m.map Prod.fst ∨ k' = k := by
  intro k' hk'
  rcases jsMapSet_keys m k v with he | he
  · rw [he] at hk'
    exact Or.inl hk'
  · rw [he] at hk'
    rcases List.mem_append.mp hk' with h | h
    · exact Or.inl h
    · exact Or.inr (by simpa using h)

omit [LawfulBEq K] in
theorem jsMapGet_values {P : A → Prop} (m : List (K × A))
    (h : ∀ p ∈ m, P p.2) (k : K) :
    jsMapGet m k = none ∨ ∃ v, jsMapGet m k = some v ∧ P v := by
  unfold jsMapGet
  cases hf : m.find? (fun p => p.1 == k) with
  | none => exact Or.inl rfl
  | some q =>
    right
    exact ⟨q.2, rfl, h q (List.mem_of_find?_eq_some hf)⟩

theorem jsMapSet_values {P : A → Prop} (m : List (K × A))
    (h : ∀ p ∈ m, P p.2) (k : K) (v : A) (hv : P v) :
    ∀ p ∈ jsMapSet m k v, P p.2 := by
  intro p hp
  unfold jsMapSet at hp
  by_cases hany : (m.any fun p => p.1 == k) = true
  · simp only [hany, if_true] at hp
    obtain ⟨q, hq, heq⟩ := List.mem_map.mp hp
    by_cases hqk : (q.1 == k) = true
    · rw [if_pos hqk] at heq
      rw [← heq]
      exact hv
    · have hf : (q.1 == k) = false := by simpa using hqk
      rw [hf] at heq
      simp at heq
      rw [← heq]
      exact h q hq
  · have hanyf : (m.any fun p => p.1 == k) = false := Bool.eq_false_iff.mpr hany
    simp only [hanyf, Bool.false_eq_true, if_false] at hp
    rcases List.mem_append.mp hp with h1 | h2
    · exact h p h1
    · have : p = (k, v) := by simpa using h2
      rw [this]
      exact hv

end JsMapKeyLemmas

/-! ### Properties of the map-building phase -/

theorem seedMaps_deg_values (nodes : List NodeInstance) :
    ∀ p ∈ (seedMaps nodes).1, p.2 = 0 := by
  unfold seedMaps
  suffices h : ∀ (acc : DegMap × AdjMap), (∀ p ∈ acc.1, p.2 = 0) →
      ∀ p ∈ (nodes.foldl (fun ma n => (degSet ma.1 n.id 0, adjSet ma.2 n.id [])) acc).1,
        p.2 = 0 by
    exact h ([], []) (by simp)
  induction nodes with
  | nil => intro acc hacc; simpa using hacc
  | cons n rest ih =>
    intro acc hacc
    exact ih _ (jsMapSet_values (P := fun v => v = 0) acc.1 hacc n.id 0 rfl)

theorem seedMaps_adj_values (nodes : List NodeInstance) :
    ∀ p ∈ (seedMaps nodes).2, p.2 = [] := by
  unfold seedMaps
  suffices h : ∀ (acc : DegMap × AdjMap), (∀ p ∈ acc.2, p.2 = []) →
      ∀ p ∈ (nodes.foldl (fun ma n => (degSet ma.1 n.id 0, adjSet ma.2 n.id [])) acc).2,
        p.2 = [] by
    exact h ([], []) (by simp)
  induction nodes with
  | nil => intro acc hacc; simpa using hacc
  | cons n rest ih =>
    intro acc hacc
    exact ih _ (jsMapSet_values (P := fun v => v = []) acc.2 hacc n.id [] rfl)

theorem seedMaps_degGetD (nodes : List NodeInstance) (t : String) :
    degGetD (seedMaps nodes).1 t 0 = 0 := by
  unfold degGetD
  rcases jsMapGet_values (P := fun v => v = 0) (seedMaps nodes).1
    (seedMaps_deg_values nodes) t with h | ⟨v, hv, hp⟩
  · simp [h]
  · simp [hv, hp]

theorem seedMaps_adjGetD (nodes : List NodeInstance) (s : String) :
    adjGetD (seedMaps nodes).2 s = [] := by
  unfold adjGetD
  rcases jsMapGet_values (P := fun v => v = []) (seedMaps nodes).2
    (seedMaps_adj_values nodes) s with h | ⟨v, hv, hp⟩
  · simp [h]
  · simp [hv, hp]

theorem seedMaps_keys_nodup (nodes : List NodeInstance) :
    ((seedMaps nodes).1.map Prod.fst).Nodup := by
  unfold seedMaps
  suffices h : ∀ (acc : DegMap × AdjMap), (acc.1.map Prod.fst).Nodup →
      (((nodes.foldl (fun ma n => (degSet ma.1 n.id 0, adjSet ma.2 n.id [])) acc).1).map
        Prod.fst).Nodup by
    exact h ([], []) (by simp)
  induction nodes with
  | nil => intro acc hacc; simpa using hacc
  | cons n rest ih =>
    intro acc hacc
    exact ih _ (jsMapSet_keys_nodup acc.1 n.id 0 hacc)

theorem seedMaps_keys_sub (nodes : List NodeInstance) :
    ∀ k ∈ (seedMaps nodes).1.map Prod.fst, k ∈ nodes.map NodeInstance.id := by
  unfold seedMaps
  suffices h : ∀ (acc : DegMap × AdjMap),
      ∀ k ∈ ((nodes.foldl (fun ma n => (degSet ma.1 n.id 0, adjSet ma.2 n.id [])) acc).1).map
        Prod.fst, k ∈ acc.1.map Prod.fst ∨ k ∈ nodes.map NodeInstance.id by
    intro k hk
    rcases h ([], []) k hk with h1 | h2
    · simp at h1
    · exact h2
  induction nodes with
  | nil => intro acc k hk; exact Or.inl hk
  | cons n rest ih =>
    intro acc k hk
    rcases ih _ k hk with h1 | h2
    · rcases jsMapSet_keys_sub acc.1 n.id 0 k h1 with ha | hb
      · exact Or.inl ha
      · exact Or.inr (by simp [hb])
    · exact Or.inr (List.mem_cons_of_mem _ h2)

theorem buildMaps_adjGetD (nodes : List NodeInstance) (conns : List Connection)
    (s : String) : adjGetD (buildMaps nodes conns).2 s = targetsOf conns s := by
  unfold buildMaps
  suffices h : ∀ (acc : DegMap × AdjMap),
      adjGetD (conns.foldl (fun ma c =>
        (degSet ma.1 c.targetNodeId (degGetD ma.1 c.targetNodeId 0 + 1),
         adjSet ma.2 c.sourceNodeId (adjGetD ma.2 c.sourceNodeId ++ [c.targetNodeId])))
        acc).2 s = adjGetD acc.2 s ++ targetsOf conns s by
    rw [h (seedMaps nodes), seedMaps_adjGetD]
    simp
  induction conns with
  | nil => intro acc; simp [targetsOf]
  | cons c cs ih =>
    intro acc
    rw [List.foldl_cons, ih, adjGetD_adjSet]
    have hexp : targetsOf (c :: cs) s =
        (if c.sourceNodeId == s then [c.targetNodeId] else []) ++ targetsOf cs s := by
      unfold targetsOf
      rw [List.filter_cons]
      by_cases hsrc : (c.sourceNodeId == s) = true
      · rw [if_pos hsrc, if_pos hsrc]
        simp
      · rw [if_neg hsrc, if_neg hsrc]
        simp
    rw [hexp]
    by_cases hseq : s = c.sourceNodeId
    · subst hseq
      rw [if_pos rfl, if_pos (beq_self_eq_true _)]
      simp
    · have hsrc : (c.sourceNodeId == s) = false := by
        simp
        intro hcontra
        exact hseq hcontra.symm
      rw [if_neg hseq, if_neg (by simp [hsrc])]
      simp

theorem buildMaps_degGetD (nodes : List NodeInstance) (conns : List Connection)
    (t : String) :
    degGetD (buildMaps nodes conns).1 t 0 = (inCount conns t : Int) := by
  unfold buildMaps
  suffices h : ∀ (acc : DegMap × AdjMap),
      degGetD (conns.foldl (fun ma c =>
        (degSet ma.1 c.targetNodeId (degGetD ma.1 c.targetNodeId 0 + 1),
         adjSet ma.2 c.sourceNodeId (adjGetD ma.2 c.sourceNodeId ++ [c.targetNodeId])))
        acc).1 t 0 = degGetD acc.1 t 0 + (inCount conns t : Int) by
    rw [h (seedMaps nodes), seedMaps_degGetD]
    ring
  induction conns with
  | nil => intro acc; simp [inCount]
  | cons c cs ih =>
    intro acc
    rw [List.foldl_cons, ih, degGetD_degSet]
    have hexp : (inCount (c :: cs) t : Int) =
        (if c.targetNodeId == t then 1 else 0) + (inCount cs t : Int) := by
      unfold inCount
      rw [List.filter_cons]
      by_cases htgt : (c.targetNodeId == t) = true
      · rw [if_pos htgt, if_pos htgt]
        simp [List.length_cons]
        ring
      · rw [if_neg htgt, if_neg htgt]
        simp
    rw [hexp]
    by_cases hteq : t = c.targetNodeId
    · subst hteq
      rw [if_pos rfl, if_pos (beq_self_eq_true _)]
      ring
    · have htgt : (c.targetNodeId == t) = false := by
        simp
        intro hcontra
        exact hteq hcontra.symm
      rw [if_neg hteq, if_neg (by simp [htgt])]
      ring

theorem buildMaps_keys_nodup (nodes : List NodeInstance) (conns : List Connection) :
    (((buildMaps nodes conns).1).map Prod.fst).Nodup := by
  unfold buildMaps
  suffices h : ∀ (acc : DegMap × AdjMap), ((acc.1).map Prod.fst).Nodup →
      (((conns.foldl (fun ma c =>
        (degSet ma.1 c.targetNodeId (degGetD ma.1 c.targetNodeId 0 + 1),
         adjSet ma.2 c.sourceNodeId (adjGetD ma.2 c.sourceNodeId ++ [c.targetNodeId])))
        acc).1).map Prod.fst).Nodup by
    exact h (seedMaps nodes) (seedMaps_keys_nodup nodes)
  induction conns with
  | nil => intro acc hacc; simpa using hacc
  | cons c cs ih =>
    intro acc hacc
    exact ih _ (jsMapSet_keys_nodup acc.1 c.targetNodeId _ hacc)

theorem buildMaps_keys_sub (nodes : List NodeInstance) (conns : List Connection) :
    ∀ k ∈ ((buildMaps nodes conns).1).map Prod.fst,
      k ∈ nodes.map NodeInstance.id ∨ k ∈ conns.map Connection.targetNodeId := by
  unfold buildMaps
  suffices h : ∀ (acc : DegMap × AdjMap),
      ∀ k ∈ ((conns.foldl (fun ma c =>
        (degSet ma.1 c.targetNodeId (degGetD ma.1 c.targetNodeId 0 + 1),
         adjSet ma.2 c.sourceNodeId (adjGetD ma.2 c.sourceNodeId ++ [c.targetNodeId])))
        acc).1).map Prod.fst,
        k ∈ (acc.1).map Prod.fst ∨ k ∈ conns.map Connection.targetNodeId by
    intro k hk
    rcases h (seedMaps nodes) k hk with h1 | h2
    · exact Or.inl (seedMaps_keys_sub nodes k h1)
    · exact Or.inr h2
  induction conns with
  | nil => intro acc k hk; exact Or.inl hk
  | cons c cs ih =>
    intro acc k hk
    rcases ih _ k hk with h1 | h2
    · rcases jsMapSet_keys_sub acc.1 c.targetNodeId _ k h1 with ha | hb
      · exact Or.inl ha
      · exact Or.inr (by simp [hb])
    · exact Or.inr (List.mem_cons_of_mem _ h2)

theorem getExecutionOrder_resultOK (nodes : List NodeInstance)
    (conns : List Connection) :
    (getExecutionOrder nodes conns).Nodup ∧
    (∀ c ∈ conns, c.targetNodeId ∈ getExecutionOrder nodes conns →
      before (getExecutionOrder nodes conns) c.sourceNodeId c.targetNodeId) ∧
    (∀ v ∈ getExecutionOrder nodes conns,
      v ∈ nodes.map NodeInstance.id ∨ v ∈ conns.map Connection.targetNodeId) := by
  have hkeys := buildMaps_keys_nodup nodes conns
  have hinv : KahnInv nodes conns
      (((buildMaps nodes conns).1.filter (fun p => p.2 == 0)).map (fun p => p.1))
      (buildMaps nodes conns).1 [] := by
    have hqueue_deg : ∀ t ∈ ((buildMaps nodes conns).1.filter
        (fun p => p.2 == 0)).map (fun p => p.1), inCount conns t = 0 := by
      intro t ht
      obtain ⟨p, hpf, hfst⟩ := List.mem_map.mp ht
      obtain ⟨hpm, hp0⟩ := List.mem_filter.mp hpf
      have hp0' : p.2 = 0 := by simpa using hp0
      have hpair : (t, (0 : Int)) ∈ (buildMaps nodes conns).1 := by
        have : p = (t, (0 : Int)) := by
          cases p
          simp only at hfst hp0'
          rw [hfst, hp0']
        rw [← this]
        exact hpm
      have hget : jsMapGet (buildMaps nodes conns).1 t = some 0 :=
        jsMapGet_of_mem_nodup _ t 0 hkeys hpair
      have hdeg : degGetD (buildMaps nodes conns).1 t 0 = 0 := by
        unfold degGetD
        rw [hget]
        rfl
      have := buildMaps_degGetD nodes conns t
      rw [hdeg] at this
      omega
    refine ⟨?_, ?_, ?_, ?_, ?_⟩
    · simp only [List.nil_append]
      have hsub : List.Sublist
          (((buildMaps nodes conns).1.filter (fun p => p.2 == 0)).map (fun p => p.1))
          ((buildMaps nodes conns).1.map Prod.fst) :=
        List.Sublist.map _ (List.filter_sublist _)
      exact hkeys.sublist hsub
    · intro t
      rw [buildMaps_degGetD, paidCount_nil]
      simp
    · intro c _ hmem
      simp at hmem
    · intro c hc hmem
      rcases hmem with h1 | h2
      · simp at h1
      · exfalso
        have h0 := hqueue_deg c.targetNodeId h2
        have : c ∈ conns.filter (fun x => x.targetNodeId == c.targetNodeId) :=
          List.mem_filter.mpr ⟨hc, by simp⟩
        unfold inCount at h0
        rw [List.length_eq_zero] at h0
        rw [h0] at this
        simp at this
    · intro v hv
      rcases hv with h1 | h2
      · simp at h1
      · obtain ⟨p, hpf, hfst⟩ := List.mem_map.mp h2
        obtain ⟨hpm, _⟩ := List.mem_filter.mp hpf
        have : v ∈ (buildMaps nodes conns).1.map Prod.fst := by
          exact List.mem_map.mpr ⟨p, hpm, hfst⟩
        exact buildMaps_keys_sub nodes conns v this
  exact kahnLoop_resultOK nodes conns (buildMaps nodes conns).2
    (buildMaps_adjGetD nodes conns) _ _ (buildMaps nodes conns).1 [] hinv

theorem edgePath_before (conns : List Connection) (res : List String)
    (hnd : res.Nodup)
    (hord : ∀ c ∈ conns, c.targetNodeId ∈ res →
      before res c.sourceNodeId c.targetNodeId) :
    ∀ v w, EdgePath conns v w → w ∈ res → before res v w := by
  intro v w hpath
  induction hpath with
  | single c hc => exact fun hw => hord c hc hw
  | cons c hc rest ih =>
    intro hw
    have h1 := ih hw
    have h2 := hord c hc (before_mem_left _ _ _ h1)
    exact before_trans res hnd _ _ _ h2 h1

/-- C1.  For every acyclic graph the execution order never places a node
before any node that has a connection into one of its inputs: whenever a
connection's target appears in the order, its source appears too, strictly
earlier.  (The source actually guarantees this ordering property for every
graph, acyclic or not.)  And for every graph containing a cycle, no member
of the cyclic set — no node lying on a directed cycle — appears anywhere
in the returned order. -/
theorem getExecutionOrder_topological (nodes : List NodeInstance)
    (conns : List Connection) :
    (Acyclic conns →
      ∀ c ∈ conns, c.targetNodeId ∈ getExecutionOrder nodes conns →
        c.sourceNodeId ∈ getExecutionOrder nodes conns ∧
        before (getExecutionOrder nodes conns) c.sourceNodeId c.targetNodeId) ∧
    (∀ v, EdgePath conns v v → v ∉ getExecutionOrder nodes conns) := by
  obtain ⟨hnd, hord, hdom⟩ := getExecutionOrder_resultOK nodes conns
  constructor
  · intro _ c hc ht
    exact ⟨before_mem_left _ _ _ (hord c hc ht), hord c hc ht⟩
  · intro v hpath hv
    exact before_irrefl _ hnd v
      (edgePath_before conns _ hnd hord v v hpath hv)

/-- C1 (witness): the theorem applied to the concrete acyclic graph
`a -> b` and to the concrete cyclic graph `x -> y -> x`. -/
theorem getExecutionOrder_topological_witness :
    ("a" ∈ getExecutionOrder
        [⟨"a", "ka", (0, 0), [], [], [], none⟩, ⟨"b", "kb", (0, 0), [], [], [], none⟩]
        [⟨"c1", "a", "output-0", "b", "input-0", none⟩] ∧
      before (getExecutionOrder
        [⟨"a", "ka", (0, 0), [], [], [], none⟩, ⟨"b", "kb", (0, 0), [], [], [], none⟩]
        [⟨"c1", "a", "output-0", "b", "input-0", none⟩]) "a" "b") ∧
    "x" ∉ getExecutionOrder
        [⟨"x", "kx", (0, 0), [], [], [], none⟩, ⟨"y", "ky", (0, 0), [], [], [], none⟩]
        [⟨"c1", "x", "output-0", "y", "input-0", none⟩,
         ⟨"c2", "y", "output-0", "x", "input-0", none⟩] := by
  constructor
  · have hacyc : Acyclic [⟨"c1", "a", "output-0", "b", "input-0", none⟩] := by
      have haux : ∀ v w,
          EdgePath [⟨"c1", "a", "output-0", "b", "input-0", none⟩] v w →
          v = "a" ∧ w = "b" := by
        intro v w h
        induction h with
        | single c hc =>
          have : c = ⟨"c1", "a", "output-0", "b", "input-0", none⟩ := by
            simpa using hc
          rw [this]
          exact ⟨rfl, rfl⟩
        | cons c hc rest ih =>
          have hce : c = ⟨"c1", "a", "output-0", "b", "input-0", none⟩ := by
            simpa using hc
          exfalso
          have h1 := ih.1
          rw [hce] at h1
          exact absurd h1 (by decide)
      intro v hv
      have := haux v v hv
      have hab : ("a" : String) = "b" := by rw [← this.1, ← this.2]
      exact absurd hab (by decide)
    have h := (getExecutionOrder_topological
      [⟨"a", "ka", (0, 0), [], [], [], none⟩, ⟨"b", "kb", (0, 0), [], [], [], none⟩]
      [⟨"c1", "a", "output-0", "b", "input-0", none⟩]).1 hacyc
      ⟨"c1", "a", "output-0", "b", "input-0", none⟩ (by decide) (by decide)
    exact h
  · exact (getExecutionOrder_topological _ _).2 "x"
      (EdgePath.cons ⟨"c1", "x", "output-0", "y", "input-0", none⟩ (by decide)
        (EdgePath.single ⟨"c2", "y", "output-0", "x", "input-0", none⟩ (by decide)))

/-- C10 (counterexample).  With one node `a` and a dangling connection
`a -> x` whose target `x` is no node's id, the Kahn maps acquire an entry
for `x`, its in-degree falls to zero once `a` is emitted, and the returned
order is `["a", "x"]` — so not every id in the order is the id of some
node in the input list. -/
theorem getExecutionOrder_phantom_id_counterexample :
    getExecutionOrder [⟨"a", "ka", (0, 0), [], [], [], none⟩]
      [⟨"c4", "a", "output-0", "x", "input-0", none⟩] = ["a", "x"] ∧
    "x" ∉ ([⟨"a", "ka", (0, 0), [], [], [], none⟩] :
      List NodeInstance).map NodeInstance.id := by
  decide

/-- C10 (amended).  The order returned by `getExecutionOrder` contains no
duplicate ids, and every id in it is the id of some node in the input list
OR the target id of some connection (dangling connection targets can
appear).  Consequently the sublist of ids that match an actual node — the
ones `executeWorkflow` runs, since it skips ids with no matching node —
has no duplicates either, so each node is attempted at most once per run. -/
theorem getExecutionOrder_nodup_and_domain (nodes : List NodeInstance)
    (conns : List Connection) :
    (getExecutionOrder nodes conns).Nodup ∧
    (∀ v ∈ getExecutionOrder nodes conns,
      v ∈ nodes.map NodeInstance.id ∨ v ∈ conns.map Connection.targetNodeId) ∧
    ((getExecutionOrder nodes conns).filter
      (fun v => nodes.any (fun n => n.id == v))).Nodup := by
  obtain ⟨hnd, _, hdom⟩ := getExecutionOrder_resultOK nodes conns
  exact ⟨hnd, hdom, hnd.filter _⟩

/-- C10 (witness). -/
theorem getExecutionOrder_nodup_and_domain_witness :
    (getExecutionOrder [⟨"a", "ka", (0, 0), [], [], [], none⟩]
      [⟨"c4", "a", "output-0", "x", "input-0", none⟩]).Nodup ∧
    ("x" ∈ ([⟨"a", "ka", (0, 0), [], [], [], none⟩] :
        List NodeInstance).map NodeInstance.id ∨
      "x" ∈ ([⟨"c4", "a", "output-0", "x", "input-0", none⟩] :
        List Connection).map Connection.targetNodeId) := by
  constructor
  · exact (getExecutionOrder_nodup_and_domain _ _).1
  · exact (getExecutionOrder_nodup_and_domain
      [⟨"a", "ka", (0, 0), [], [], [], none⟩]
      [⟨"c4", "a", "output-0", "x", "input-0", none⟩]).2.1 "x" (by decide)

/-! ## Claims about workflow execution -/

theorem countNodeErrors_append (l1 l2 : List Event) (n : String) :
    countNodeErrors (l1 ++ l2) n = countNodeErrors l1 n + countNodeErrors l2 n := by
  unfold countNodeErrors
  rw [List.filter_append, List.length_append]

theorem countNodeErrors_progress_map (es : List (Nat × String)) (i n : String) :
    countNodeErrors (es.map (fun pm => Event.progress i pm.1 pm.2)) n = 0 := by
  unfold countNodeErrors
  induction es with
  | nil => rfl
  | cons e rest ih =>
    rw [List.map_cons, List.filter_cons]
    simpa using ih

theorem countNodeErrors_progress_cons (l : List Event) (i : String) (p : Nat)
    (msg n : String) :
    countNodeErrors (Event.progress i p msg :: l) n = countNodeErrors l n := by
  unfold countNodeErrors
  rw [List.filter_cons]
  simp

theorem countNodeErrors_complete_cons (l : List Event) (i : String) (o : SMap)
    (n : String) :
    countNodeErrors (Event.complete i o :: l) n = countNodeErrors l n := by
  unfold countNodeErrors
  rw [List.filter_cons]
  simp

theorem countNodeErrors_error_cons (l : List Event) (i msg n : String) :
    countNodeErrors (Event.error i msg :: l) n =
      (if i == n then 1 else 0) + countNodeErrors l n := by
  unfold countNodeErrors
  rw [List.filter_cons]
  by_cases h : (i == n) = true
  · simp [h]
    omega
  · have hf : (i == n) = false := by simpa using h
    simp [hf]

theorem countNodeErrors_nil (n : String) : countNodeErrors [] n = 0 := rfl

/-- C2 (counterexample).  Concrete run of the chain with a capability that
throws exactly for `kb`: the error callback fires TWICE for `b` (once from
`executeNode`'s catch, once more from `executeWorkflow`'s catch around the
rethrow), and the returned output map has an entry for `c` (node `c` runs
and succeeds; only `b` itself is absent) — against the claim's exactly
one error callback and no entry for C. -/
theorem executeWorkflow_single_failure_counterexample :
    countNodeErrors (executeWorkflow
      [⟨"ka", "A", [], [⟨"out", "any", false⟩], []⟩,
       ⟨"kb", "B", [], [⟨"out", "any", false⟩], []⟩,
       ⟨"kc", "C", [], [⟨"out", "any", false⟩], []⟩]
      (fun k _ => if k == "kb" then ([], Except.error "boom")
        else ([], Except.ok [("out", Val.str "v")]))
      [chainA, chainB, chainC] chainConns).events "b" = 2 ∧
    (2 : Nat) ≠ 1 ∧
    outsGet (executeWorkflow
      [⟨"ka", "A", [], [⟨"out", "any", false⟩], []⟩,
       ⟨"kb", "B", [], [⟨"out", "any", false⟩], []⟩,
       ⟨"kc", "C", [], [⟨"out", "any", false⟩], []⟩]
      (fun k _ => if k == "kb" then ([], Except.error "boom")
        else ([], Except.ok [("out", Val.str "v")]))
      [chainA, chainB, chainC] chainConns).nodeOutputs "c"
      = some [("out", Val.str "v")] := by
  refine ⟨by decide, by decide, by decide⟩

/-- C2 (amended).  For every registry that knows the three kinds and every
capability executor that succeeds on `ka` and `kc` and throws on `kb`
(whatever the inputs), running the chain `a -> b -> c` reports the error
callback for `b` exactly TWICE (once from `executeNode`'s catch before the
rethrow, once from `executeWorkflow`'s catch) and for no other node,
execution does not halt, and the returned output map has entries for `a`
AND for `c` but none for `b` (the downstream node `c` still runs, its
missing input simply staying unresolved). -/
theorem executeWorkflow_partial_failure (registry : List NodeDefinition)
    (cap : Capability)
    (hdefA : (getNodeDefinition registry "ka").isSome = true)
    (hdefB : (getNodeDefinition registry "kb").isSome = true)
    (hdefC : (getNodeDefinition registry "kc").isSome = true)
    (hcapA : ∀ inp, ∃ es o, cap "ka" inp = (es, Except.ok o))
    (hcapB : ∀ inp, ∃ es m, cap "kb" inp = (es, Except.error m))
    (hcapC : ∀ inp, ∃ es o, cap "kc" inp = (es, Except.ok o)) :
    countNodeErrors (executeWorkflow registry cap
      [chainA, chainB, chainC] chainConns).events "b" = 2 ∧
    countNodeErrors (executeWorkflow registry cap
      [chainA, chainB, chainC] chainConns).events "a" = 0 ∧
    countNodeErrors (executeWorkflow registry cap
      [chainA, chainB, chainC] chainConns).events "c" = 0 ∧
    (outsGet (executeWorkflow registry cap
      [chainA, chainB, chainC] chainConns).nodeOutputs "a").isSome = true ∧
    outsGet (executeWorkflow registry cap
      [chainA, chainB, chainC] chainConns).nodeOutputs "b" = none ∧
    (outsGet (executeWorkflow registry cap
      [chainA, chainB, chainC] chainConns).nodeOutputs "c").isSome = true := by
  obtain ⟨dA, hdA⟩ := Option.isSome_iff_exists.mp hdefA
  obtain ⟨dB, hdB⟩ := Option.isSome_iff_exists.mp hdefB
  obtain ⟨dC, hdC⟩ := Option.isSome_iff_exists.mp hdefC
  obtain ⟨esA, oA, hcA⟩ := hcapA (getNodeInputs chainA chainConns [])
  obtain ⟨esB, mB, hcB⟩ :=
    hcapB (getNodeInputs chainB chainConns (outsSet [] "a" oA))
  obtain ⟨esC, oC, hcC⟩ :=
    hcapC (getNodeInputs chainC chainConns (outsSet [] "a" oA))
  have heA : executeNode registry cap chainA chainConns [] =
      (Event.progress "a" 10 "准备执行..." ::
        (esA.map (fun pm => Event.progress "a" pm.1 pm.2) ++
          [Event.progress "a" 100 "完成"]), Except.ok oA) := by
    unfold executeNode
    rw [show chainA.ntype = "ka" from rfl, hdA]
    simp only [hcA]
    rfl
  have heB : executeNode registry cap chainB chainConns (outsSet [] "a" oA) =
      (Event.progress "b" 10 "准备执行..." ::
        (esB.map (fun pm => Event.progress "b" pm.1 pm.2) ++
          [Event.error "b" mB]), Except.error mB) := by
    unfold executeNode
    rw [show chainB.ntype = "kb" from rfl, hdB]
    simp only [hcB]
    rfl
  have heC : executeNode registry cap chainC chainConns (outsSet [] "a" oA) =
      (Event.progress "c" 10 "准备执行..." ::
        (esC.map (fun pm => Event.progress "c" pm.1 pm.2) ++
          [Event.progress "c" 100 "完成"]), Except.ok oC) := by
    unfold executeNode
    rw [show chainC.ntype = "kc" from rfl, hdC]
    simp only [hcC]
    rfl
  have horder : getExecutionOrder [chainA, chainB, chainC] chainConns
      = ["a", "b", "c"] := by decide
  have hfA : List.find? (fun n => n.id == "a") [chainA, chainB, chainC]
      = some chainA := by decide
  have hfB : List.find? (fun n => n.id == "b") [chainA, chainB, chainC]
      = some chainB := by decide
  have hfC : List.find? (fun n => n.id == "c") [chainA, chainB, chainC]
      = some chainC := by decide
  have hrun : executeWorkflow registry cap [chainA, chainB, chainC] chainConns =
      { events :=
          ((Event.progress "a" 10 "准备执行..." ::
            (esA.map (fun pm => Event.progress "a" pm.1 pm.2) ++
              [Event.progress "a" 100 "完成"])) ++ [Event.complete "a" oA]) ++
          ((Event.progress "b" 10 "准备执行..." ::
            (esB.map (fun pm => Event.progress "b" pm.1 pm.2) ++
              [Event.error "b" mB])) ++ [Event.error "b" mB]) ++
          ((Event.progress "c" 10 "准备执行..." ::
            (esC.map (fun pm => Event.progress "c" pm.1 pm.2) ++
              [Event.progress "c" 100 "完成"])) ++ [Event.complete "c" oC])
        nodeOutputs := outsSet (outsSet [] "a" oA) "c" oC } := by
    unfold executeWorkflow
    rw [horder]
    rw [List.foldl_cons, List.foldl_cons, List.foldl_cons, List.foldl_nil]
    simp only [hfA, hfB, hfC, heA, heB, heC]
    simp [List.append_assoc]
  rw [hrun]
  have houts1 : outsSet ([] : OutMap) "a" oA = [("a", oA)] := rfl
  have houts2 : outsSet [("a", oA)] "c" oC = [("a", oA), ("c", oC)] := by
    unfold outsSet jsMapSet
    norm_num
    decide
  have hb_ne_a : (("b" : String) == "a") = false := by decide
  have hb_ne_c : (("b" : String) == "c") = false := by decide
  have hb_eq : (("b" : String) == "b") = true := by decide
  refine ⟨?_, ?_, ?_, ?_, ?_, ?_⟩
  · simp only [countNodeErrors_append, countNodeErrors_progress_cons,
      countNodeErrors_progress_map, countNodeErrors_complete_cons,
      countNodeErrors_error_cons, countNodeErrors_nil, hb_eq]
    simp
  · simp only [countNodeErrors_append, countNodeErrors_progress_cons,
      countNodeErrors_progress_map, countNodeErrors_complete_cons,
      countNodeErrors_error_cons, countNodeErrors_nil, hb_ne_a]
    simp
  · simp only [countNodeErrors_append, countNodeErrors_progress_cons,
      countNodeErrors_progress_map, countNodeErrors_complete_cons,
      countNodeErrors_error_cons, countNodeErrors_nil, hb_ne_c]
    simp
  · simp only [houts1, houts2]
    simp [outsGet, jsMapGet]
  · simp only [houts1, houts2]
    simp [outsGet, jsMapGet]
  · simp only [houts1, houts2]
    simp [outsGet, jsMapGet]

/-- C2 (witness). -/
theorem executeWorkflow_partial_failure_witness :
    countNodeErrors (executeWorkflow
      [⟨"ka", "A", [], [⟨"out", "any", false⟩], []⟩,
       ⟨"kb", "B", [], [⟨"out", "any", false⟩], []⟩,
       ⟨"kc", "C", [], [⟨"out", "any", false⟩], []⟩]
      (fun k _ => if k == "kb" then ([], Except.error "boom")
        else ([], Except.ok [("out", Val.str "v")]))
      [chainA, chainB, chainC] chainConns).events "b" = 2 ∧
    outsGet (executeWorkflow
      [⟨"ka", "A", [], [⟨"out", "any", false⟩], []⟩,
       ⟨"kb", "B", [], [⟨"out", "any", false⟩], []⟩,
       ⟨"kc", "C", [], [⟨"out", "any", false⟩], []⟩]
      (fun k _ => if k == "kb" then ([], Except.error "boom")
        else ([], Except.ok [("out", Val.str "v")]))
      [chainA, chainB, chainC] chainConns).nodeOutputs "b" = none := by
  have h := executeWorkflow_partial_failure
    [⟨"ka", "A", [], [⟨"out", "any", false⟩], []⟩,
     ⟨"kb", "B", [], [⟨"out", "any", false⟩], []⟩,
     ⟨"kc", "C", [], [⟨"out", "any", false⟩], []⟩]
    (fun k _ => if k == "kb" then ([], Except.error "boom")
      else ([], Except.ok [("out", Val.str "v")]))
    (by decide) (by decide) (by decide)
    (fun inp => ⟨[], [("out", Val.str "v")], rfl⟩)
    (fun inp => ⟨[], "boom", rfl⟩)
    (fun inp => ⟨[], [("out", Val.str "v")], rfl⟩)
  exact ⟨h.1, h.2.2.2.2.1⟩

/-! ## Claims about the validator -/

theorem lastChar_append_right (a b : String) (hb : b.data ≠ []) :
    (a ++ b).data.getLast? = b.data.getLast? := by
  rw [String.data_append]
  exact List.getLast?_append_of_ne_nil _ hb

theorem isolatedMsg_lastChar (t : String) :
    (isolatedMsg t).data.getLast? = some '点' := by
  unfold isolatedMsg
  rw [lastChar_append_right _ _ (by decide)]
  decide

theorem inputMsg_lastChar (d i : String) :
    (inputMsg d i).data.getLast? = some '接' := by
  unfold inputMsg
  rw [lastChar_append_right _ _ (by decide)]
  decide

theorem inputMsg_ne_isolatedMsg (d i t : String) : inputMsg d i ≠ isolatedMsg t := by
  intro h
  have hl := inputMsg_lastChar d i
  rw [h, isolatedMsg_lastChar] at hl
  exact absurd hl (by decide)

theorem emptyMsg_ne_isolatedMsg (t : String) : emptyWorkflowMsg ≠ isolatedMsg t := by
  intro h
  have hl : (emptyWorkflowMsg).data.getLast? = some '空' := by decide
  rw [h, isolatedMsg_lastChar] at hl
  exact absurd hl (by decide)

theorem foldrWarnings_shape (dn : String) (conns : List Connection)
    (nid : String) (inputs : List Port) :
    ∀ w ∈ inputs.foldr (fun inp acc =>
      if (!inp.widget && !inp.connected &&
          !(conns.any (fun c => c.targetNodeId == nid && c.targetPortId == inp.id)))
        then inputMsg dn inp.name :: acc else acc) [],
      ∃ d i, w = inputMsg d i := by
  induction inputs with
  | nil => simp
  | cons inp rest ih =>
    intro w hw
    rw [List.foldr_cons] at hw
    by_cases hcond : (!inp.widget && !inp.connected &&
        !(conns.any (fun c => c.targetNodeId == nid && c.targetPortId == inp.id)))
        = true
    · rw [if_pos hcond] at hw
      rcases List.mem_cons.mp hw with he | ht
      · exact ⟨dn, inp.name, he⟩
      · exact ih w ht
    · rw [if_neg hcond] at hw
      exact ih w hw

theorem inputWarnings_shape (registry : List NodeDefinition)
    (conns : List Connection) (n : NodeInstance) :
    ∀ w ∈ inputWarnings registry conns n, ∃ d i, w = inputMsg d i := by
  unfold inputWarnings
  cases hdef : getNodeDefinition registry n.ntype with
  | none => simp
  | some d =>
    intro w hw
    exact foldrWarnings_shape d.name conns n.id n.inputs w hw

theorem allInputWarnings_shape (registry : List NodeDefinition)
    (conns : List Connection) (nodes : List NodeInstance) :
    ∀ w ∈ nodes.foldr (fun n acc => inputWarnings registry conns n ++ acc) [],
      ∃ d i, w = inputMsg d i := by
  induction nodes with
  | nil => simp
  | cons n rest ih =>
    intro w hw
    rw [List.foldr_cons] at hw
    rcases List.mem_append.mp hw with h1 | h2
    · exact inputWarnings_shape registry conns n w h1
    · exact ih w h2

/-- C9.  For every workflow of two nodes joined by one connection (in
either direction) plus one third node with no connections,
`validateWorkflow` returns zero errors, the warning list counts exactly
one unconnected-node warning and it names the isolated node (any
unconnected-node warning present is that one; the remaining warnings are
unconnected-input warnings, which have a different shape); and for any
workflow with at most one node no unconnected-node warning is emitted at
all. -/
theorem validateWorkflow_two_connected_one_isolated
    (registry : List NodeDefinition) (n1 n2 n3 : NodeInstance) (conn : Connection)
    (h12 : n1.id ≠ n2.id) (h13 : n1.id ≠ n3.id) (h23 : n2.id ≠ n3.id)
    (hconn : (conn.sourceNodeId = n1.id ∧ conn.targetNodeId = n2.id) ∨
             (conn.sourceNodeId = n2.id ∧ conn.targetNodeId = n1.id)) :
    (validateWorkflow registry [n1, n2, n3] [conn]).errors = [] ∧
    ((validateWorkflow registry [n1, n2, n3] [conn]).warnings.count
      (isolatedMsg n3.ntype)) = 1 ∧
    (∀ t, isolatedMsg t ∈ (validateWorkflow registry [n1, n2, n3] [conn]).warnings →
      isolatedMsg t = isolatedMsg n3.ntype) ∧
    (∀ (nodes : List NodeInstance) (conns2 : List Connection), nodes.length ≤ 1 →
      ∀ t, isolatedMsg t ∉ (validateWorkflow registry nodes conns2).warnings) := by
  have e21 : (n2.id == n1.id) = false := by simp [Ne.symm h12]
  have e31 : (n3.id == n1.id) = false := by simp [Ne.symm h13]
  have e32 : (n3.id == n2.id) = false := by simp [Ne.symm h23]
  have e12 : (n1.id == n2.id) = false := by simp [h12]
  have e13 : (n1.id == n3.id) = false := by simp [h13]
  have e23 : (n2.id == n3.id) = false := by simp [h23]
  have hiso : isolatedWarnings [n1, n2, n3] [conn] = [isolatedMsg n3.ntype] := by
    unfold isolatedWarnings connectedNodeIds
    rcases hconn with ⟨hs, ht⟩ | ⟨hs, ht⟩
    · simp only [List.foldl_cons, List.foldl_nil, List.nil_append, hs, ht]
      simp [List.filter_cons, e21, e31, e32, Ne.symm h13, Ne.symm h23]
    · simp only [List.foldl_cons, List.foldl_nil, List.nil_append, hs, ht]
      simp [List.filter_cons, e12, e31, e32, Ne.symm h13, Ne.symm h23]
  have hcyc : detectCycle [n1, n2, n3] [conn] = false := by
    rcases hconn with ⟨hs, ht⟩ | ⟨hs, ht⟩
    · simp [detectCycle, detectCycleFold, hasCycleAux, hasCycleGo, hs, ht,
        e21, e31, e32, e12, e13, e23, h12, h13, h23,
        Ne.symm h12, Ne.symm h13, Ne.symm h23]
    · simp [detectCycle, detectCycleFold, hasCycleAux, hasCycleGo, hs, ht,
        e21, e31, e32, e12, e13, e23, h12, h13, h23,
        Ne.symm h12, Ne.symm h13, Ne.symm h23]
  have hval : validateWorkflow registry [n1, n2, n3] [conn] =
      ⟨true, [], [isolatedMsg n3.ntype] ++
        ([n1, n2, n3].foldr (fun n acc => inputWarnings registry [conn] n ++ acc) [])⟩ := by
    unfold validateWorkflow
    rw [if_neg (by simp), hcyc, hiso]
    simp
  refine ⟨by rw [hval], ?_, ?_, ?_⟩
  · rw [hval]
    show ((isolatedMsg n3.ntype :: _).count _) = 1
    rw [List.count_cons]
    have hz : ∀ n : NodeInstance,
        List.count (isolatedMsg n3.ntype) (inputWarnings registry [conn] n) = 0 := by
      intro n
      rw [List.count_eq_zero]
      intro hmem
      obtain ⟨d, i, hshape⟩ := inputWarnings_shape registry [conn] n _ hmem
      exact inputMsg_ne_isolatedMsg d i n3.ntype hshape.symm
    simp [List.nil_append, hz]
  · intro t hmem
    rw [hval] at hmem
    rcases List.mem_append.mp hmem with h1 | h2
    · simpa using h1
    · obtain ⟨d, i, hshape⟩ :=
        allInputWarnings_shape registry [conn] [n1, n2, n3] _ h2
      exact absurd hshape.symm (inputMsg_ne_isolatedMsg d i t)
  · intro nodes conns2 hlen t hmem
    match nodes, hlen with
    | [], _ =>
      have : (validateWorkflow registry [] conns2).warnings = [emptyWorkflowMsg] := by
        unfold validateWorkflow
        simp
      rw [this] at hmem
      have : isolatedMsg t = emptyWorkflowMsg := by simpa using hmem
      exact emptyMsg_ne_isolatedMsg t this.symm
    | [n], _ =>
      have hone : isolatedWarnings [n] conns2 = [] := by
        unfold isolatedWarnings
        simp
      have : (validateWorkflow registry [n] conns2).warnings =
          inputWarnings registry conns2 n ++ [] := by
        unfold validateWorkflow
        rw [if_neg (by simp), hone]
        simp
      rw [this] at hmem
      obtain ⟨d, i, hshape⟩ := inputWarnings_shape registry conns2 n _
        (by simpa using hmem)
      exact absurd hshape.symm (inputMsg_ne_isolatedMsg d i t)
    | n :: m :: r, hlen => simp at hlen

/-- C9 (witness). -/
theorem validateWorkflow_two_connected_one_isolated_witness :
    (validateWorkflow [] [⟨"n1", "k1", (0, 0), [], [], [], none⟩,
      ⟨"n2", "k2", (0, 0), [], [], [], none⟩,
      ⟨"n3", "k3", (0, 0), [], [], [], none⟩]
      [⟨"c1", "n1", "output-0", "n2", "input-0", none⟩]).errors = [] ∧
    ((validateWorkflow [] [⟨"n1", "k1", (0, 0), [], [], [], none⟩,
      ⟨"n2", "k2", (0, 0), [], [], [], none⟩,
      ⟨"n3", "k3", (0, 0), [], [], [], none⟩]
      [⟨"c1", "n1", "output-0", "n2", "input-0", none⟩]).warnings.count
      (isolatedMsg "k3")) = 1 := by
  have h := validateWorkflow_two_connected_one_isolated []
    ⟨"n1", "k1", (0, 0), [], [], [], none⟩
    ⟨"n2", "k2", (0, 0), [], [], [], none⟩
    ⟨"n3", "k3", (0, 0), [], [], [], none⟩
    ⟨"c1", "n1", "output-0", "n2", "input-0", none⟩
    (by decide) (by decide) (by decide) (Or.inl ⟨rfl, rfl⟩)
  exact ⟨h.1, h.2.1⟩

/-! ## Claims about the importer -/

theorem jsMapGet_eq_none_of_not_mem_keys {K A : Type} [BEq K] [LawfulBEq K]
    (m : List (K × A)) (k : K) (h : k ∉ m.map Prod.fst) : jsMapGet m k = none := by
  unfold jsMapGet
  rw [List.find?_eq_none.mpr]
  · rfl
  · intro p hp hbeq
    have hpk : p.1 = k := by simpa using hbeq
    exact h (List.mem_map.mpr ⟨p, hp, hpk⟩)

theorem importNodeData_eq_fold (d : NodeDefinition) (wv : List Val) :
    importNodeData (some d) (some wv) = d.inputs.enum.foldl (importDataStep wv) [] := by
  unfold importNodeData importDataStep
  rfl

theorem importDataFold_untouched (wv : List Val) (inputs : List DefPort)
    (k : Nat) (m0 : SMap) (name : String)
    (hname : name ∉ inputs.map DefPort.name) :
    smapGet ((inputs.enumFrom k).foldl (importDataStep wv) m0) name
      = smapGet m0 name := by
  induction inputs generalizing k m0 with
  | nil => rfl
  | cons inp rest ih =>
    rw [List.enumFrom_cons, List.foldl_cons]
    have hname_rest : name ∉ rest.map DefPort.name := by
      intro hc
      exact hname (List.mem_cons_of_mem _ hc)
    have hname_ne : name ≠ inp.name := by
      intro hc
      exact hname (by simp [hc])
    rw [ih (k + 1) _ hname_rest]
    unfold importDataStep
    by_cases hw : inp.widget = true
    · rw [if_pos hw]
      cases hv : wv.get? k with
      | none => rfl
      | some v =>
        unfold smapGet smapSet
        rw [jsMapGet_jsMapSet]
        rw [if_neg hname_ne]
    · rw [if_neg hw]

theorem importDataFold_get (wv : List Val) (inputs : List DefPort)
    (k : Nat) (m0 : SMap)
    (hnames : (inputs.map DefPort.name).Nodup)
    (hm0 : ∀ name ∈ inputs.map DefPort.name, name ∉ m0.map Prod.fst) :
    ∀ (i : Nat) (hi : i < inputs.length),
      smapGet ((inputs.enumFrom k).foldl (importDataStep wv) m0)
        ((inputs.get ⟨i, hi⟩).name)
      = if (inputs.get ⟨i, hi⟩).widget then wv.get? (k + i) else none := by
  induction inputs generalizing k m0 with
  | nil => intro i hi; simp at hi
  | cons inp rest ih =>
    intro i hi
    rw [List.enumFrom_cons, List.foldl_cons]
    match i with
    | 0 =>
      have hhead : inp.name ∉ rest.map DefPort.name := by
        rw [List.map_cons, List.nodup_cons] at hnames
        exact hnames.1
      show smapGet ((rest.enumFrom (k + 1)).foldl (importDataStep wv)
          (importDataStep wv m0 (k, inp))) inp.name
        = if inp.widget then wv.get? (k + 0) else none
      rw [importDataFold_untouched wv rest (k + 1) _ inp.name hhead]
      unfold importDataStep
      have hm0' : smapGet m0 inp.name = none :=
        jsMapGet_eq_none_of_not_mem_keys m0 inp.name
          (hm0 inp.name (by simp))
      by_cases hw : inp.widget = true
      · rw [if_pos hw, if_pos hw]
        cases hv : wv.get? k with
        | none =>
          simp only [Nat.add_zero, hv]
          exact hm0'
        | some v =>
          simp only [Nat.add_zero, hv]
          unfold smapGet smapSet
          rw [jsMapGet_jsMapSet]
          rw [if_pos rfl]
      · rw [if_neg hw, if_neg hw]
        exact hm0'
    | j + 1 =>
      have hj : j < rest.length := by
        simp only [List.length_cons] at hi
        omega
      have hnames' : (rest.map DefPort.name).Nodup := by
        rw [List.map_cons, List.nodup_cons] at hnames
        exact hnames.2
      have hm1 : ∀ name ∈ rest.map DefPort.name,
          name ∉ (importDataStep wv m0 (k, inp)).map Prod.fst := by
        intro name hn hc
        unfold importDataStep at hc
        by_cases hw : inp.widget = true
        · rw [if_pos hw] at hc
          cases hv : wv.get? k with
          | none =>
            rw [hv] at hc
            exact hm0 name (List.mem_cons_of_mem _ hn) hc
          | some v =>
            rw [hv] at hc
            rcases jsMapSet_keys_sub m0 inp.name v name hc with h1 | h2
            · exact hm0 name (List.mem_cons_of_mem _ hn) h1
            · rw [List.map_cons, List.nodup_cons] at hnames
              exact hnames.1 (h2 ▸ hn)
        · rw [if_neg hw] at hc
          exact hm0 name (List.mem_cons_of_mem _ hn) hc
      show smapGet ((rest.enumFrom (k + 1)).foldl (importDataStep wv)
          (importDataStep wv m0 (k, inp))) ((rest.get ⟨j, hj⟩).name)
        = if (rest.get ⟨j, hj⟩).widget then wv.get? (k + (j + 1)) else none
      rw [ih (k + 1) (importDataStep wv m0 (k, inp)) hnames' hm1 j hj]
      have harith : k + 1 + j = k + (j + 1) := by omega
      rw [harith]

theorem importComfyUIWorkflow_nodes (registry : List NodeDefinition)
    (mkNodeId mkConnId : Nat → String) (wf : ComfyUIWorkflow) :
    (importComfyUIWorkflow registry mkNodeId mkConnId wf).nodes
      = wf.nodes.enum.map (fun ip => importComfyNode registry (mkNodeId ip.1) ip.2) := by
  have h : ∀ (l : List (Nat × ComfyUINode)) (acc : NatIdMap × List NodeInstance),
      (l.foldl (fun acc inode =>
        (natMapSet acc.1 inode.2.id (mkNodeId inode.1),
         acc.2 ++ [importComfyNode registry (mkNodeId inode.1) inode.2])) acc).2
      = acc.2 ++ l.map (fun ip => importComfyNode registry (mkNodeId ip.1) ip.2) := by
    intro l
    induction l with
    | nil => intro acc; simp
    | cons p rest ih =>
      intro acc
      rw [List.foldl_cons, ih, List.map_cons]
      simp
  simpa [importComfyUIWorkflow] using h wf.nodes.enum ([], [])

/-- C7 (counterexample).  A definition whose first input carries no widget
and whose second does: the importer stores `widgets_values[1]` (the value
at the input's absolute index) into the widget-bearing input, not
`widgets_values[0]` (the value at its index within the widget-bearing
subset) as the claim requires. -/
theorem importComfyUIWorkflow_widget_counterexample :
    ((importComfyUIWorkflow
        [⟨"comfy-w", "W", [⟨"in0", "any", false⟩, ⟨"in1", "text", true⟩], [], []⟩]
        (fun i => "u" ++ toString i) (fun i => "l" ++ toString i)
        ⟨1, 0, [⟨1, "w", (0, 0), some (1, 1), none, none,
          some [Val.str "a", Val.str "b"]⟩], []⟩).nodes.map
      NodeInstance.data) = [[("in1", Val.str "b")]] ∧
    Val.str "b" ≠ Val.str "a" ∧
    (getNodeDefinition
      [⟨"comfy-w", "W", [⟨"in0", "any", false⟩, ⟨"in1", "text", true⟩], [], []⟩]
      "comfy-w").isSome = true := by
  refine ⟨by rfl, by decide, by rfl⟩

/-- C7 (amended).  For every imported external node whose kind resolves to
a known definition with distinctly named inputs and whose record carries a
widget-values array, the importer assigns literal data by ABSOLUTE input
position: the definition input at index `i` receives `widgets_values[i]`
when it carries a widget and that array slot exists, and receives nothing
otherwise — the widget-bearing subset's own ordering plays no role. -/
theorem importComfyUIWorkflow_widget_absolute (registry : List NodeDefinition)
    (mkNodeId mkConnId : Nat → String) (wf : ComfyUIWorkflow)
    (k : Nat) (comfyNode : ComfyUINode) (hk : wf.nodes.get? k = some comfyNode)
    (d : NodeDefinition)
    (hres : getNodeDefinition registry
      ((strLookup comfyNodeTypeMap comfyNode.ctype).getD
        ("comfy-" ++ strToLower comfyNode.ctype)) = some d)
    (wv : List Val) (hwv : comfyNode.widgets_values = some wv)
    (hnames : (d.inputs.map DefPort.name).Nodup) :
    ∀ n, (importComfyUIWorkflow registry mkNodeId mkConnId wf).nodes.get? k = some n →
      ∀ (i : Nat) (hi : i < d.inputs.length),
        smapGet n.data ((d.inputs.get ⟨i, hi⟩).name)
          = if (d.inputs.get ⟨i, hi⟩).widget then wv.get? i else none := by
  intro n hn i hi
  rw [importComfyUIWorkflow_nodes, List.get?_map, List.enum_get?, hk] at hn
  simp only [Option.map_some', Function.comp_apply, Option.some.injEq] at hn
  have hdata : n.data = importNodeData (some d) (some wv) := by
    rw [← hn]
    show importNodeData
      (getNodeDefinition registry
        ((strLookup comfyNodeTypeMap comfyNode.ctype).getD
          ("comfy-" ++ strToLower comfyNode.ctype)))
      comfyNode.widgets_values = _
    rw [hres, hwv]
  rw [hdata, importNodeData_eq_fold]
  have henum : d.inputs.enum = d.inputs.enumFrom 0 := rfl
  rw [henum]
  have := importDataFold_get wv d.inputs 0 [] hnames (by simp) i hi
  rw [this]
  simp

theorem importComfyUIWorkflow_widget_absolute_witness :
    smapGet (NodeInstance.data (importComfyNode
        [⟨"comfy-w", "W", [⟨"in0", "any", false⟩, ⟨"in1", "text", true⟩], [], []⟩]
        "u0" ⟨1, "w", (0, 0), some (1, 1), none, none,
          some [Val.str "a", Val.str "b"]⟩)) "in1" = some (Val.str "b") ∧
    smapGet (NodeInstance.data (importComfyNode
        [⟨"comfy-w", "W", [⟨"in0", "any", false⟩, ⟨"in1", "text", true⟩], [], []⟩]
        "u0" ⟨1, "w", (0, 0), some (1, 1), none, none,
          some [Val.str "a", Val.str "b"]⟩)) "in0" = none := by
  have h := importComfyUIWorkflow_widget_absolute
    [⟨"comfy-w", "W", [⟨"in0", "any", false⟩, ⟨"in1", "text", true⟩], [], []⟩]
    (fun i => "u" ++ toString i) (fun i => "l" ++ toString i)
    ⟨1, 0, [⟨1, "w", (0, 0), some (1, 1), none, none,
      some [Val.str "a", Val.str "b"]⟩], []⟩
    0 ⟨1, "w", (0, 0), some (1, 1), none, none,
      some [Val.str "a", Val.str "b"]⟩ rfl
    ⟨"comfy-w", "W", [⟨"in0", "any", false⟩, ⟨"in1", "text", true⟩], [], []⟩
    (by rfl) [Val.str "a", Val.str "b"] rfl (by decide)
  have h1 := h (importComfyNode
    [⟨"comfy-w", "W", [⟨"in0", "any", false⟩, ⟨"in1", "text", true⟩], [], []⟩]
    "u0" ⟨1, "w", (0, 0), some (1, 1), none, none,
      some [Val.str "a", Val.str "b"]⟩) (by rfl) 1 (by decide)
  have h0 := h (importComfyNode
    [⟨"comfy-w", "W", [⟨"in0", "any", false⟩, ⟨"in1", "text", true⟩], [], []⟩]
    "u0" ⟨1, "w", (0, 0), some (1, 1), none, none,
      some [Val.str "a", Val.str "b"]⟩) (by rfl) 0 (by decide)
  exact ⟨h1, h0⟩

/-! ## Round-trip support lemmas -/

theorem jsMapSet_fresh {K A : Type} [BEq K] [LawfulBEq K] (m : List (K × A))
    (k : K) (v : A) (h : k ∉ m.map Prod.fst) : jsMapSet m k v = m ++ [(k, v)] := by
  unfold jsMapSet
  have hany : (m.any fun p => p.1 == k) = false := by
    rw [List.any_eq_false]
    intro p hp he
    exact h (List.mem_map.mpr ⟨p, hp, eq_of_beq he⟩)
  simp [hany]

theorem foldl_fresh_table {K V : Type} [BEq K] [LawfulBEq K] :
    ∀ (l : List (K × V)) (acc : List (K × V)),
      (∀ p ∈ l, p.1 ∉ acc.map Prod.fst) → (l.map Prod.fst).Nodup →
      l.foldl (fun m p => jsMapSet m p.1 p.2) acc = acc ++ l := by
  intro l
  induction l with
  | nil => intro acc _ _; simp
  | cons p rest ih =>
    intro acc hfresh hnd
    rw [List.foldl_cons,
      jsMapSet_fresh acc p.1 p.2 (hfresh p (List.mem_cons_self p rest))]
    rw [List.map_cons, List.nodup_cons] at hnd
    have hfr2 : ∀ q ∈ rest, q.1 ∉ (acc ++ [(p.1, p.2)]).map Prod.fst := by
      intro q hq
      rw [List.map_append, List.mem_append]
      rintro (h1 | h2)
      · exact hfresh q (List.mem_cons_of_mem _ hq) h1
      · simp at h2
        exact hnd.1 (h2 ▸ List.mem_map.mpr ⟨q, hq, rfl⟩)
    rw [ih (acc ++ [(p.1, p.2)]) hfr2 hnd.2]
    simp

theorem foldl_emit {A B : Type} (step : List B → A → List B) (f : Nat → A → B) :
    ∀ (l : List A) (init : List B),
      (∀ acc a, a ∈ l → step acc a = acc ++ [f acc.length a]) →
      l.foldl step init = init ++ (l.enumFrom init.length).map (fun p => f p.1 p.2) := by
  intro l
  induction l with
  | nil => intro init _; simp
  | cons a rest ih =>
    intro init hstep
    rw [List.foldl_cons, hstep init a (List.mem_cons_self a rest),
      ih (init ++ [f init.length a])
        (fun acc a' ha' => hstep acc a' (List.mem_cons_of_mem _ ha'))]
    simp [List.enumFrom_cons, List.append_assoc]

theorem findIdx?_spec {A : Type} (p : A → Bool) :
    ∀ (l : List A) (j : Nat), l.findIdx? p = some j →
      ∃ x, l.get? j = some x ∧ p x = true := by
  intro l
  induction l with
  | nil => intro j h; simp [List.findIdx?] at h
  | cons x xs ih =>
    intro j h
    rw [List.findIdx?_cons, List.findIdx?_succ] at h
    by_cases hp : p x = true
    · rw [if_pos hp] at h
      have h0 : j = 0 := by simpa using h.symm
      subst h0
      exact ⟨x, rfl, hp⟩
    · rw [if_neg hp] at h
      cases hfi : xs.findIdx? p with
      | none => rw [hfi] at h; simp at h
      | some j' =>
        rw [hfi] at h
        have hj : j' + 1 = j := by simpa using h
        obtain ⟨x', hx', hpx'⟩ := ih j' hfi
        refine ⟨x', ?_, hpx'⟩
        rw [← hj]
        simpa using hx'

theorem findIdx?_isSome_of_mem {A : Type} (p : A → Bool) :
    ∀ (l : List A) (x : A), x ∈ l → p x = true →
      (l.findIdx? p).isSome = true := by
  intro l
  induction l with
  | nil => intro x hx _; simp at hx
  | cons a rest ih =>
    intro x hx hp
    rw [List.findIdx?_cons, List.findIdx?_succ]
    by_cases ha : p a = true
    · simp [ha]
    · rw [if_neg ha]
      rcases List.mem_cons.mp hx with rfl | hmem
      · exact absurd hp ha
      · have := ih x hmem hp
        cases hfi : rest.findIdx? p with
        | none => rw [hfi] at this; simp at this
        | some j => rfl

theorem findIdx?_key_of_mem_nodup {A K : Type} [BEq K] [LawfulBEq K] (f : A → K) :
    ∀ (l : List A) (x : A), (l.map f).Nodup → x ∈ l →
      ∃ j, l.findIdx? (fun a => f a == f x) = some j ∧ l.get? j = some x ∧
        l.find? (fun a => f a == f x) = some x := by
  intro l
  induction l with
  | nil => intro x _ hx; simp at hx
  | cons a rest ih =>
    intro x hnd hx
    rw [List.map_cons, List.nodup_cons] at hnd
    rcases List.mem_cons.mp hx with rfl | hmem
    · refine ⟨0, ?_, rfl, ?_⟩
      · rw [List.findIdx?_cons]
        simp
      · exact List.find?_cons_of_pos _ (by simp)
    · have hne : (f a == f x) = false := by
        rw [beq_eq_false_iff_ne]
        intro he
        apply hnd.1
        rw [he]
        exact List.mem_map.mpr ⟨x, hmem, rfl⟩
      obtain ⟨j, h1, h2, h3⟩ := ih x hnd.2 hmem
      refine ⟨j + 1, ?_, by simpa using h2, ?_⟩
      · rw [List.findIdx?_cons, List.findIdx?_succ, if_neg (by simp [hne]), h1]
        rfl
      · rw [List.find?_cons_of_neg _ (by simp [hne])]
        exact h3

theorem strLookup_eq_some_mem (m : StrMap) (v k : String)
    (h : strLookup m v = some k) : (v, k) ∈ m := by
  unfold strLookup jsMapGet at h
  cases hf : m.find? (fun p => p.1 == v) with
  | none => rw [hf] at h; simp at h
  | some p =>
    rw [hf] at h
    obtain ⟨p1, p2⟩ := p
    have hfst : p1 = v := by simpa using List.find?_some hf
    have hsnd : p2 = k := by simpa using h
    have hmem := List.mem_of_find?_eq_some hf
    rw [hfst, hsnd] at hmem
    exact hmem

/-- The reverse node-type dictionary is consistent with the forward one:
looking the reverse image back up yields the original internal kind (the
`SaveImage` entry is shadowed by `PreviewImage`, whose forward image is the
same kind `image-output`). -/
theorem comfyNodeTypeMap_consistent :
    ∀ p ∈ reverseStrMap comfyNodeTypeMap,
      strLookup comfyNodeTypeMap p.2 = some p.1 := by decide

theorem importConnStep_resolved (table : NatIdMap) (mkConnId : Nat → String)
    (acc : List Connection) (link : ComfyUILink)
    (hs : (natMapGet table link.srcNode).isSome = true)
    (ht : (natMapGet table link.dstNode).isSome = true) :
    importConnStep table mkConnId acc link
      = acc ++ [importLinkConn table mkConnId acc.length link] := by
  obtain ⟨s, hs'⟩ := Option.isSome_iff_exists.mp hs
  obtain ⟨t, ht'⟩ := Option.isSome_iff_exists.mp ht
  unfold importConnStep importLinkConn
  rw [hs', ht']
  rfl

theorem exportLinkStep_resolved (idMap : StrNatMap) (rTM : StrMap)
    (nodes : List NodeInstance) (acc : ExportLinkState) (conn : Connection)
    (h : ExportConvertible idMap nodes conn) :
    (exportLinkStep idMap rTM nodes acc conn).links
        = acc.links ++ [exportLinkRecord idMap rTM nodes acc.linkCounter conn] ∧
    (exportLinkStep idMap rTM nodes acc conn).linkCounter = acc.linkCounter + 1 := by
  obtain ⟨h1, h2, h3, h4⟩ := h
  obtain ⟨sCid, hs⟩ := Option.isSome_iff_exists.mp h1
  obtain ⟨tCid, ht⟩ := Option.isSome_iff_exists.mp h2
  obtain ⟨o, ho⟩ := Option.isSome_iff_exists.mp h3
  obtain ⟨sn, hsn, ho2⟩ := Option.bind_eq_some.mp ho
  obtain ⟨s, hfis, hgo⟩ := Option.bind_eq_some.mp ho2
  obtain ⟨t4, ht4⟩ := Option.isSome_iff_exists.mp h4
  obtain ⟨tn, htn, hfit⟩ := Option.bind_eq_some.mp ht4
  unfold exportLinkStep exportLinkRecord
  rw [hs, ht, hsn, htn]
  simp only [Option.some_bind, hfis, hfit, Option.getD_some]
  rw [hgo]
  simp only [Option.map_some', Option.getD_some]
  refine ⟨?_, ?_⟩ <;> trivial

theorem updateFirst_map_proj {B : Type} (proj : ComfyUINode → B)
    (p : ComfyUINode → Bool) (f : ComfyUINode → ComfyUINode)
    (hf : ∀ n, proj (f n) = proj n) :
    ∀ (l : List ComfyUINode), (updateFirst l p f).map proj = l.map proj := by
  intro l
  induction l with
  | nil => rfl
  | cons x xs ih =>
    unfold updateFirst
    by_cases hp : p x = true
    · simp [hp, hf]
    · rw [if_neg hp]
      simp [ih]

theorem backfillSource_map_proj (cnodes : List ComfyUINode) (a b c : Nat) :
    (backfillSource cnodes a b c).map (fun n => (n.id, n.ctype))
      = cnodes.map (fun n => (n.id, n.ctype)) := by
  unfold backfillSource
  apply updateFirst_map_proj
  intro n
  split
  · rfl
  · split
    · rfl
    · rfl

theorem backfillTarget_map_proj (cnodes : List ComfyUINode) (a b c : Nat) :
    (backfillTarget cnodes a b c).map (fun n => (n.id, n.ctype))
      = cnodes.map (fun n => (n.id, n.ctype)) := by
  unfold backfillTarget
  apply updateFirst_map_proj
  intro n
  split
  · rfl
  · split
    · rfl
    · rfl

theorem exportLinkStep_cnodes_proj (idMap : StrNatMap) (rTM : StrMap)
    (nodes : List NodeInstance) (acc : ExportLinkState) (conn : Connection) :
    (exportLinkStep idMap rTM nodes acc conn).cnodes.map (fun n => (n.id, n.ctype))
      = acc.cnodes.map (fun n => (n.id, n.ctype)) := by
  unfold exportLinkStep
  split
  · split
    · split
      · split
        · dsimp only
          rw [backfillTarget_map_proj, backfillSource_map_proj]
        · rfl
      · rfl
    · rfl
  · rfl

theorem exportLinkFold_cnodes_proj (idMap : StrNatMap) (rTM : StrMap)
    (nodes : List NodeInstance) :
    ∀ (conns : List Connection) (acc : ExportLinkState),
      (conns.foldl (exportLinkStep idMap rTM nodes) acc).cnodes.map
          (fun n => (n.id, n.ctype))
        = acc.cnodes.map (fun n => (n.id, n.ctype)) := by
  intro conns
  induction conns with
  | nil => intro acc; rfl
  | cons c rest ih =>
    intro acc
    rw [List.foldl_cons, ih, exportLinkStep_cnodes_proj]

theorem exportLinkFold_links (idMap : StrNatMap) (rTM : StrMap)
    (nodes : List NodeInstance) :
    ∀ (conns : List Connection) (acc : ExportLinkState),
      (∀ c ∈ conns, ExportConvertible idMap nodes c) →
      (conns.foldl (exportLinkStep idMap rTM nodes) acc).links
        = acc.links ++ (conns.enumFrom acc.linkCounter).map
            (fun p => exportLinkRecord idMap rTM nodes p.1 p.2) := by
  intro conns
  induction conns with
  | nil => intro acc _; simp
  | cons c rest ih =>
    intro acc hconv
    obtain ⟨hl, hc⟩ :=
      exportLinkStep_resolved idMap rTM nodes acc c (hconv c (by simp))
    rw [List.foldl_cons,
      ih _ (fun c' hc' => hconv c' (List.mem_cons_of_mem _ hc')), hl, hc,
      List.enumFrom_cons]
    simp [List.append_assoc]

theorem exportNodeFold (rTM rNTM : StrMap) :
    ∀ (l : List (Nat × NodeInstance)) (acc : StrNatMap × List ComfyUINode),
      l.foldl (fun acc inode =>
          (snMapSet acc.1 inode.2.id (inode.1 + 1),
           acc.2 ++ [exportComfyNode rTM rNTM (inode.1 + 1) inode.2])) acc
        = (l.foldl (fun m ip => snMapSet m ip.2.id (ip.1 + 1)) acc.1,
           acc.2 ++ l.map (fun ip => exportComfyNode rTM rNTM (ip.1 + 1) ip.2)) := by
  intro l
  induction l with
  | nil => intro acc; simp
  | cons p rest ih =>
    intro acc
    rw [List.foldl_cons, ih]
    simp [List.foldl_cons, List.append_assoc]

theorem importNodeFold (registry : List NodeDefinition) (mkN : Nat → String) :
    ∀ (l : List (Nat × ComfyUINode)) (acc : NatIdMap × List NodeInstance),
      l.foldl (fun acc inode =>
          (natMapSet acc.1 inode.2.id (mkN inode.1),
           acc.2 ++ [importComfyNode registry (mkN inode.1) inode.2])) acc
        = (l.foldl (fun m ip => natMapSet m ip.2.id (mkN ip.1)) acc.1,
           acc.2 ++ l.map (fun ip => importComfyNode registry (mkN ip.1) ip.2)) := by
  intro l
  induction l with
  | nil => intro acc; simp
  | cons p rest ih =>
    intro acc
    rw [List.foldl_cons, ih]
    simp [List.foldl_cons, List.append_assoc]

theorem export_idMap_eq (nodes : List NodeInstance)
    (hids : (nodes.map NodeInstance.id).Nodup) :
    nodes.enum.foldl (fun m ip => snMapSet m ip.2.id (ip.1 + 1)) []
      = nodes.enum.map (fun ip => (ip.2.id, ip.1 + 1)) := by
  have hkeys : ((nodes.enum.map (fun ip => (ip.2.id, ip.1 + 1))).map Prod.fst).Nodup := by
    rw [List.map_map,
      show (Prod.fst ∘ fun ip : Nat × NodeInstance => (ip.2.id, ip.1 + 1))
        = (NodeInstance.id ∘ Prod.snd) from rfl,
      ← List.map_map, List.enum_map_snd]
    exact hids
  simp only [snMapSet]
  rw [← List.foldl_map (fun ip : Nat × NodeInstance => (ip.2.id, ip.1 + 1))
    (fun m p => jsMapSet m p.1 p.2)]
  rw [foldl_fresh_table _ [] (by simp) hkeys]
  simp

theorem import_idTable_eq (mkN : Nat → String) (cnodes : List ComfyUINode)
    (hids : (cnodes.map ComfyUINode.id).Nodup) :
    cnodes.enum.foldl (fun m ip => natMapSet m ip.2.id (mkN ip.1)) []
      = cnodes.enum.map (fun ip => (ip.2.id, mkN ip.1)) := by
  have hkeys : ((cnodes.enum.map (fun ip => (ip.2.id, mkN ip.1))).map Prod.fst).Nodup := by
    rw [List.map_map,
      show (Prod.fst ∘ fun ip : Nat × ComfyUINode => (ip.2.id, mkN ip.1))
        = (ComfyUINode.id ∘ Prod.snd) from rfl,
      ← List.map_map, List.enum_map_snd]
    exact hids
  simp only [natMapSet]
  rw [← List.foldl_map (fun ip : Nat × ComfyUINode => (ip.2.id, mkN ip.1))
    (fun m p => jsMapSet m p.1 p.2)]
  rw [foldl_fresh_table _ [] (by simp) hkeys]
  simp

theorem exportToComfyUIWorkflow_cnodes_proj (nodes : List NodeInstance)
    (conns : List Connection) :
    (exportToComfyUIWorkflow nodes conns).nodes.map (fun cn => (cn.id, cn.ctype))
      = nodes.enum.map (fun ip =>
          (ip.1 + 1, exportComfyType (reverseStrMap comfyNodeTypeMap) ip.2.ntype)) := by
  simp only [exportToComfyUIWorkflow]
  rw [exportNodeFold]
  rw [exportLinkFold_cnodes_proj]
  simp only [List.nil_append]
  rw [List.map_map]
  rfl

theorem exportToComfyUIWorkflow_links_eq (nodes : List NodeInstance)
    (conns : List Connection)
    (hids : (nodes.map NodeInstance.id).Nodup)
    (hconv : ∀ c ∈ conns, ExportConvertible
        (nodes.enum.map (fun ip => (ip.2.id, ip.1 + 1))) nodes c) :
    (exportToComfyUIWorkflow nodes conns).links
      = (conns.enumFrom 1).map (fun p =>
          exportLinkRecord (nodes.enum.map (fun ip => (ip.2.id, ip.1 + 1)))
            (reverseStrMap comfyTypeMap) nodes p.1 p.2) := by
  simp only [exportToComfyUIWorkflow]
  rw [exportNodeFold]
  simp only []
  rw [export_idMap_eq nodes hids]
  rw [exportLinkFold_links _ _ _ conns _ hconv]
  simp

theorem importComfyUIWorkflow_connections (registry : List NodeDefinition)
    (mkN mkC : Nat → String) (wf : ComfyUIWorkflow)
    (hnd : (wf.nodes.map ComfyUINode.id).Nodup)
    (hres : ∀ l ∈ wf.links,
      (natMapGet (wf.nodes.enum.map (fun ip => (ip.2.id, mkN ip.1))) l.srcNode).isSome
          = true ∧
      (natMapGet (wf.nodes.enum.map (fun ip => (ip.2.id, mkN ip.1))) l.dstNode).isSome
          = true) :
    (importComfyUIWorkflow registry mkN mkC wf).connections
      = wf.links.enum.map (fun p =>
          importLinkConn (wf.nodes.enum.map (fun ip => (ip.2.id, mkN ip.1)))
            mkC p.1 p.2) := by
  simp only [importComfyUIWorkflow]
  rw [importNodeFold]
  simp only []
  rw [import_idTable_eq mkN wf.nodes hnd]
  rw [foldl_emit _
    (importLinkConn (wf.nodes.enum.map (fun ip => (ip.2.id, mkN ip.1))) mkC)
    wf.links []
    (fun acc l hl =>
      importConnStep_resolved _ mkC acc l (hres l hl).1 (hres l hl).2)]
  simp [List.enum]

/-- Facts about the node-side resolution of one connection endpoint in a
graph with unique node ids. -/
theorem nodeSide_facts (nodes : List NodeInstance) (k : String)
    (hids : (nodes.map NodeInstance.id).Nodup)
    (sn : NodeInstance) (hmem : sn ∈ nodes) (hid : sn.id = k) :
    ∃ j, nodes.findIdx? (fun n => n.id == k) = some j ∧
      nodes.get? j = some sn ∧
      nodes.find? (fun n => n.id == k) = some sn ∧
      snMapGet (nodes.enum.map (fun ip => (ip.2.id, ip.1 + 1))) k = some (j + 1) := by
  obtain ⟨j, h1, h2, h3⟩ := findIdx?_key_of_mem_nodup NodeInstance.id nodes sn hids hmem
  rw [hid] at h1 h3
  refine ⟨j, h1, h2, h3, ?_⟩
  apply jsMapGet_of_mem_nodup
  · rw [List.map_map,
      show (Prod.fst ∘ fun ip : Nat × NodeInstance => (ip.2.id, ip.1 + 1))
        = (NodeInstance.id ∘ Prod.snd) from rfl,
      ← List.map_map, List.enum_map_snd]
    exact hids
  · have he : nodes.enum.get? j = some (j, sn) := by
      rw [List.enum_get?, h2]
      rfl
    have hm : (nodes.enum.map (fun ip => (ip.2.id, ip.1 + 1))).get? j
        = some (sn.id, j + 1) := by
      rw [List.get?_map, he]
      rfl
    rw [hid] at hm
    exact List.get?_mem hm

/-- Facts about the port-side resolution of one connection endpoint on a
node whose port ids are the canonical positional ones. -/
theorem portSide_facts (ports : List Port) (pfx : String) (pid : String)
    (hcan : ports.map Port.id
        = (List.range ports.length).map (fun i => pfx ++ toString i))
    (hmem : pid ∈ ports.map Port.id) :
    ∃ s o, ports.findIdx? (fun o => o.id == pid) = some s ∧
      ports.get? s = some o ∧ o.id = pid ∧ pfx ++ toString s = pid := by
  obtain ⟨o0, ho0, hid0⟩ := List.mem_map.mp hmem
  have hsome := findIdx?_isSome_of_mem (fun o => o.id == pid) ports o0 ho0
    (by simp [hid0])
  obtain ⟨s, hs⟩ := Option.isSome_iff_exists.mp hsome
  obtain ⟨o, hgo, hpo⟩ := findIdx?_spec _ ports s hs
  have hoid : o.id = pid := eq_of_beq hpo
  refine ⟨s, o, hs, hgo, hoid, ?_⟩
  have hlt : s < ports.length := by
    by_contra hge
    rw [List.get?_eq_none.mpr (by omega)] at hgo
    exact Option.noConfusion hgo
  have h1 : (ports.map Port.id).get? s = some o.id := by
    rw [List.get?_map, hgo]
    rfl
  rw [hcan, List.get?_map, List.get?_range hlt] at h1
  have h2 : pfx ++ toString s = o.id := by simpa using h1
  rw [h2, hoid]

/-- Reading the import-side id table of a re-imported export at an
external id `j + 1` yields the `j`-th fresh internal id, when the external
node ids are the positional ones the export assigns. -/
theorem importTable_get (mkN : Nat → String) (cnodes : List ComfyUINode)
    (hcid : cnodes.map ComfyUINode.id
        = (List.range cnodes.length).map (fun i => i + 1))
    (j : Nat) (hj : j < cnodes.length) :
    natMapGet (cnodes.enum.map (fun ip => (ip.2.id, mkN ip.1))) (j + 1)
      = some (mkN j) := by
  apply jsMapGet_of_mem_nodup
  · rw [List.map_map,
      show (Prod.fst ∘ fun ip : Nat × ComfyUINode => (ip.2.id, mkN ip.1))
        = (ComfyUINode.id ∘ Prod.snd) from rfl,
      ← List.map_map, List.enum_map_snd, hcid]
    exact List.Nodup.map (fun a b h => by omega) (List.nodup_range _)
  · have h1 : (cnodes.map ComfyUINode.id).get? j = some (j + 1) := by
      rw [hcid, List.get?_map, List.get?_range hj]
      rfl
    rw [List.get?_map] at h1
    cases hg : cnodes.get? j with
    | none => rw [hg] at h1; simp at h1
    | some cn =>
      rw [hg] at h1
      have hcnid : cn.id = j + 1 := by simpa using h1
      have he : cnodes.enum.get? j = some (j, cn) := by
        rw [List.enum_get?, hg]
        rfl
      have h2 : (cnodes.enum.map (fun ip => (ip.2.id, mkN ip.1))).get? j
          = some (cn.id, mkN j) := by
        rw [List.get?_map, he]
        rfl
      rw [hcnid] at h2
      exact List.get?_mem h2

/-- C3 (counterexample).  A single `image-upload` node (whose kind has the
explicit external mapping `LoadImage`) carrying literal data
`{imageUrl: "x"}`: its definition has no widget-bearing inputs (its input
list is empty), so re-importing the export yields a node with EMPTY
literal data — the literal-data values are not reproduced. -/
theorem exportImport_data_counterexample :
    (strLookup (reverseStrMap comfyNodeTypeMap) "image-upload").isSome = true ∧
    ((importComfyUIWorkflow
        [⟨"image-upload", "图像上传", [], [⟨"图像", "image", false⟩],
          [("imageUrl", Val.str ""), ("fileName", Val.str "")]⟩]
        (fun i => "u" ++ toString i) (fun i => "l" ++ toString i)
        (exportToComfyUIWorkflow
          [⟨"n1", "image-upload", (0, 0), [("imageUrl", Val.str "x")], [],
            [⟨"output-0", "图像", "image", false, false⟩], none⟩] [])).nodes.map
      NodeInstance.data) = [[]] ∧
    ([⟨"n1", "image-upload", (0, 0), [("imageUrl", Val.str "x")], [],
        [⟨"output-0", "图像", "image", false, false⟩], none⟩].map
      NodeInstance.data) = [[("imageUrl", Val.str "x")]] := by
  refine ⟨by decide, by rfl, by rfl⟩

/-- C3 (amended).  For a graph whose node kinds all have explicit entries
in the reverse node-type dictionary, whose node ids are unique, whose port
ids are the canonical positional ones, and whose connections resolve to
existing endpoint nodes and ports, re-importing the export reproduces the
node kinds in order, assigns the fresh internal ids positionally, and
reproduces the connection topology (each connection joins the
corresponding nodes at the same port ids) — but, per the counterexample,
not the literal-data values. -/
theorem exportImport_roundtrip
    (registry : List NodeDefinition) (mkNodeId mkConnId : Nat → String)
    (nodes : List NodeInstance) (connections : List Connection)
    (hkinds : ∀ n ∈ nodes,
      (strLookup (reverseStrMap comfyNodeTypeMap) n.ntype).isSome = true)
    (hids : (nodes.map NodeInstance.id).Nodup)
    (hports : ∀ n ∈ nodes,
      n.outputs.map Port.id
          = (List.range n.outputs.length).map (fun i => "output-" ++ toString i) ∧
      n.inputs.map Port.id
          = (List.range n.inputs.length).map (fun i => "input-" ++ toString i))
    (hsrc : ∀ c ∈ connections, ∃ sn ∈ nodes,
      sn.id = c.sourceNodeId ∧ c.sourcePortId ∈ sn.outputs.map Port.id)
    (htgt : ∀ c ∈ connections, ∃ tn ∈ nodes,
      tn.id = c.targetNodeId ∧ c.targetPortId ∈ tn.inputs.map Port.id) :
    (importComfyUIWorkflow registry mkNodeId mkConnId
        (exportToComfyUIWorkflow nodes connections)).nodes.map NodeInstance.ntype
        = nodes.map NodeInstance.ntype ∧
    (importComfyUIWorkflow registry mkNodeId mkConnId
        (exportToComfyUIWorkflow nodes connections)).nodes.map NodeInstance.id
        = (List.range nodes.length).map mkNodeId ∧
    (importComfyUIWorkflow registry mkNodeId mkConnId
        (exportToComfyUIWorkflow nodes connections)).connections.map
        (fun c => (c.sourceNodeId, c.sourcePortId, c.targetNodeId, c.targetPortId))
        = connections.map (fun c =>
            (mkNodeId ((nodes.findIdx? (fun n => n.id == c.sourceNodeId)).getD 0),
             c.sourcePortId,
             mkNodeId ((nodes.findIdx? (fun n => n.id == c.targetNodeId)).getD 0),
             c.targetPortId)) := by
  set wfE := exportToComfyUIWorkflow nodes connections with hwfE
  have hproj := exportToComfyUIWorkflow_cnodes_proj nodes connections
  have hcid : wfE.nodes.map ComfyUINode.id
      = (List.range nodes.length).map (fun i => i + 1) := by
    calc wfE.nodes.map ComfyUINode.id
        = wfE.nodes.map ((fun p : Nat × String => p.1) ∘ fun cn => (cn.id, cn.ctype))
          := rfl
      _ = (wfE.nodes.map (fun cn => (cn.id, cn.ctype))).map
            (fun p : Nat × String => p.1) :=
          (List.map_map (fun p : Nat × String => p.1)
            (fun cn : ComfyUINode => (cn.id, cn.ctype)) wfE.nodes).symm
      _ = (nodes.enum.map (fun ip =>
            (ip.1 + 1,
             exportComfyType (reverseStrMap comfyNodeTypeMap) ip.2.ntype))).map
            (fun p : Nat × String => p.1) := by rw [hproj]
      _ = nodes.enum.map (fun ip : Nat × NodeInstance => ip.1 + 1) := by
            rw [List.map_map]
            rfl
      _ = (nodes.enum.map Prod.fst).map (fun i => i + 1) :=
          (List.map_map (fun i : Nat => i + 1) Prod.fst nodes.enum).symm
      _ = (List.range nodes.length).map (fun i => i + 1) := by
            rw [List.enum_map_fst]
  have hlen : wfE.nodes.length = nodes.length := by
    have h := congrArg List.length hcid
    simpa using h
  have hndE : (wfE.nodes.map ComfyUINode.id).Nodup := by
    rw [hcid]
    exact List.Nodup.map (fun a b h => by omega) (List.nodup_range _)
  have hfacts : ∀ c ∈ connections, ∃ js jt sn tn s t o,
      nodes.findIdx? (fun n => n.id == c.sourceNodeId) = some js ∧
      nodes.get? js = some sn ∧
      nodes.find? (fun n => n.id == c.sourceNodeId) = some sn ∧
      snMapGet (nodes.enum.map (fun ip => (ip.2.id, ip.1 + 1))) c.sourceNodeId
        = some (js + 1) ∧
      sn.outputs.findIdx? (fun o => o.id == c.sourcePortId) = some s ∧
      sn.outputs.get? s = some o ∧
      ("output-" ++ toString s = c.sourcePortId) ∧
      nodes.findIdx? (fun n => n.id == c.targetNodeId) = some jt ∧
      nodes.get? jt = some tn ∧
      nodes.find? (fun n => n.id == c.targetNodeId) = some tn ∧
      snMapGet (nodes.enum.map (fun ip => (ip.2.id, ip.1 + 1))) c.targetNodeId
        = some (jt + 1) ∧
      tn.inputs.findIdx? (fun i2 => i2.id == c.targetPortId) = some t ∧
      ("input-" ++ toString t = c.targetPortId) := by
    intro c hc
    obtain ⟨sn, hsnmem, hsid, hsport⟩ := hsrc c hc
    obtain ⟨tn, htnmem, htid, htport⟩ := htgt c hc
    obtain ⟨js, hfi_s, hget_s, hfind_s, hmap_s⟩ :=
      nodeSide_facts nodes c.sourceNodeId hids sn hsnmem hsid
    obtain ⟨jt, hfi_t, hget_t, hfind_t, hmap_t⟩ :=
      nodeSide_facts nodes c.targetNodeId hids tn htnmem htid
    obtain ⟨s, o, hfio_s, hgo_s, hoid_s, hps⟩ :=
      portSide_facts sn.outputs "output-" c.sourcePortId (hports sn hsnmem).1 hsport
    obtain ⟨t, i2, hfio_t, hgo_t, hoid_t, hpt⟩ :=
      portSide_facts tn.inputs "input-" c.targetPortId (hports tn htnmem).2 htport
    exact ⟨js, jt, sn, tn, s, t, o, hfi_s, hget_s, hfind_s, hmap_s, hfio_s, hgo_s,
      hps, hfi_t, hget_t, hfind_t, hmap_t, hfio_t, hpt⟩
  have hconv : ∀ c ∈ connections, ExportConvertible
      (nodes.enum.map (fun ip => (ip.2.id, ip.1 + 1))) nodes c := by
    intro c hc
    obtain ⟨js, jt, sn, tn, s, t, o, hfi_s, hget_s, hfind_s, hmap_s, hfio_s, hgo_s,
      hps, hfi_t, hget_t, hfind_t, hmap_t, hfio_t, hpt⟩ := hfacts c hc
    refine ⟨?_, ?_, ?_, ?_⟩
    · rw [hmap_s]; rfl
    · rw [hmap_t]; rfl
    · rw [hfind_s]
      simp only [Option.some_bind, hfio_s, hgo_s]
      rfl
    · rw [hfind_t]
      simp only [Option.some_bind, hfio_t]
      rfl
  have hlinks := exportToComfyUIWorkflow_links_eq nodes connections hids hconv
  have hresI : ∀ l ∈ wfE.links,
      (natMapGet (wfE.nodes.enum.map (fun ip => (ip.2.id, mkNodeId ip.1)))
        l.srcNode).isSome = true ∧
      (natMapGet (wfE.nodes.enum.map (fun ip => (ip.2.id, mkNodeId ip.1)))
        l.dstNode).isSome = true := by
    intro l hl
    rw [hlinks] at hl
    obtain ⟨p, hp, rfl⟩ := List.mem_map.mp hl
    have hc : p.2 ∈ connections := List.snd_mem_of_mem_enumFrom hp
    obtain ⟨js, jt, sn, tn, s, t, o, hfi_s, hget_s, hfind_s, hmap_s, hfio_s, hgo_s,
      hps, hfi_t, hget_t, hfind_t, hmap_t, hfio_t, hpt⟩ := hfacts p.2 hc
    have hjs : js < nodes.length := by
      by_contra hge
      rw [List.get?_eq_none.mpr (by omega)] at hget_s
      exact Option.noConfusion hget_s
    have hjt : jt < nodes.length := by
      by_contra hge
      rw [List.get?_eq_none.mpr (by omega)] at hget_t
      exact Option.noConfusion hget_t
    have hsrcN : (exportLinkRecord (nodes.enum.map (fun ip => (ip.2.id, ip.1 + 1)))
        (reverseStrMap comfyTypeMap) nodes p.1 p.2).srcNode = js + 1 := by
      show (snMapGet (nodes.enum.map (fun ip => (ip.2.id, ip.1 + 1)))
        p.2.sourceNodeId).getD 0 = js + 1
      rw [hmap_s]
      rfl
    have hdstN : (exportLinkRecord (nodes.enum.map (fun ip => (ip.2.id, ip.1 + 1)))
        (reverseStrMap comfyTypeMap) nodes p.1 p.2).dstNode = jt + 1 := by
      show (snMapGet (nodes.enum.map (fun ip => (ip.2.id, ip.1 + 1)))
        p.2.targetNodeId).getD 0 = jt + 1
      rw [hmap_t]
      rfl
    have hcid2 : wfE.nodes.map ComfyUINode.id
        = (List.range wfE.nodes.length).map (fun i => i + 1) := by
      rw [hlen]
      exact hcid
    constructor
    · rw [hsrcN, importTable_get mkNodeId wfE.nodes hcid2 js (by omega)]
      rfl
    · rw [hdstN, importTable_get mkNodeId wfE.nodes hcid2 jt (by omega)]
      rfl
  have hGconns := importComfyUIWorkflow_connections registry mkNodeId mkConnId
    wfE hndE hresI
  have hcid2 : wfE.nodes.map ComfyUINode.id
      = (List.range wfE.nodes.length).map (fun i => i + 1) := by
    rw [hlen]
    exact hcid
  refine ⟨?_, ?_, ?_⟩
  · -- node kinds are reproduced in order
    rw [importComfyUIWorkflow_nodes]
    apply List.ext
    intro k
    rw [List.get?_map, List.get?_map, List.get?_map, List.enum_get?]
    cases hgE : wfE.nodes.get? k with
    | none =>
      have hkn : nodes.length ≤ k := by
        have := List.get?_eq_none.mp hgE
        omega
      rw [List.get?_eq_none.mpr hkn]
      rfl
    | some cn =>
      have hkl : k < nodes.length := by
        have : ¬ wfE.nodes.length ≤ k := by
          intro hge
          rw [List.get?_eq_none.mpr hge] at hgE
          exact Option.noConfusion hgE
        omega
      obtain ⟨n, hgn⟩ : ∃ n, nodes.get? k = some n := by
        cases hx : nodes.get? k with
        | none =>
          have := List.get?_eq_none.mp hx
          omega
        | some n => exact ⟨n, rfl⟩
      have hp := congrArg (fun l => l.get? k) hproj
      simp only [List.get?_map, List.enum_get?, hgE, hgn, Option.map_some'] at hp
      have hct : cn.ctype
          = exportComfyType (reverseStrMap comfyNodeTypeMap) n.ntype := by
        simp only [Option.some.injEq, Prod.mk.injEq] at hp
        exact hp.2
      rw [hgn]
      simp only [Option.map_some']
      obtain ⟨ck, hck⟩ := Option.isSome_iff_exists.mp (hkinds n (List.get?_mem hgn))
      have hexp : exportComfyType (reverseStrMap comfyNodeTypeMap) n.ntype = ck := by
        unfold exportComfyType
        rw [hck]
      have hfwd : strLookup comfyNodeTypeMap ck = some n.ntype :=
        comfyNodeTypeMap_consistent (n.ntype, ck) (strLookup_eq_some_mem _ _ _ hck)
      show some ((strLookup comfyNodeTypeMap cn.ctype).getD
        ("comfy-" ++ strToLower cn.ctype)) = some n.ntype
      rw [hct, hexp, hfwd]
      rfl
  · -- fresh ids are assigned positionally
    rw [importComfyUIWorkflow_nodes]
    calc (wfE.nodes.enum.map
          (fun ip => importComfyNode registry (mkNodeId ip.1) ip.2)).map
            NodeInstance.id
        = wfE.nodes.enum.map (fun ip : Nat × ComfyUINode => mkNodeId ip.1) := by
          rw [List.map_map]
          rfl
      _ = (wfE.nodes.enum.map Prod.fst).map mkNodeId :=
          (List.map_map mkNodeId Prod.fst wfE.nodes.enum).symm
      _ = (List.range wfE.nodes.length).map mkNodeId := by rw [List.enum_map_fst]
      _ = (List.range nodes.length).map mkNodeId := by rw [hlen]
  · -- the connection topology is reproduced
    rw [hGconns, hlinks]
    apply List.ext
    intro k
    rw [List.get?_map, List.get?_map, List.get?_map, List.enum_get?,
      List.get?_map, List.enumFrom_get?]
    cases hgc : connections.get? k with
    | none => rfl
    | some c =>
      simp only [Option.map_some']
      obtain ⟨js, jt, sn, tn, s, t, o, hfi_s, hget_s, hfind_s, hmap_s, hfio_s,
        hgo_s, hps, hfi_t, hget_t, hfind_t, hmap_t, hfio_t, hpt⟩ :=
        hfacts c (List.get?_mem hgc)
      have hjs : js < nodes.length := by
        by_contra hge
        rw [List.get?_eq_none.mpr (by omega)] at hget_s
        exact Option.noConfusion hget_s
      have hjt : jt < nodes.length := by
        by_contra hge
        rw [List.get?_eq_none.mpr (by omega)] at hget_t
        exact Option.noConfusion hget_t
      have hsrcN : (exportLinkRecord
          (nodes.enum.map (fun ip => (ip.2.id, ip.1 + 1)))
          (reverseStrMap comfyTypeMap) nodes (1 + k) c).srcNode = js + 1 := by
        show (snMapGet (nodes.enum.map (fun ip => (ip.2.id, ip.1 + 1)))
          c.sourceNodeId).getD 0 = js + 1
        rw [hmap_s]
        rfl
      have hdstN : (exportLinkRecord
          (nodes.enum.map (fun ip => (ip.2.id, ip.1 + 1)))
          (reverseStrMap comfyTypeMap) nodes (1 + k) c).dstNode = jt + 1 := by
        show (snMapGet (nodes.enum.map (fun ip => (ip.2.id, ip.1 + 1)))
          c.targetNodeId).getD 0 = jt + 1
        rw [hmap_t]
        rfl
      have hsrcS : (exportLinkRecord
          (nodes.enum.map (fun ip => (ip.2.id, ip.1 + 1)))
          (reverseStrMap comfyTypeMap) nodes (1 + k) c).srcSlot = s := by
        show ((nodes.find? (fun n => n.id == c.sourceNodeId)).bind (fun sn =>
          sn.outputs.findIdx? (fun o => o.id == c.sourcePortId))).getD 0 = s
        rw [hfind_s]
        simp only [Option.some_bind, hfio_s]
        rfl
      have hdstS : (exportLinkRecord
          (nodes.enum.map (fun ip => (ip.2.id, ip.1 + 1)))
          (reverseStrMap comfyTypeMap) nodes (1 + k) c).dstSlot = t := by
        show ((nodes.find? (fun n => n.id == c.targetNodeId)).bind (fun tn =>
          tn.inputs.findIdx? (fun i2 => i2.id == c.targetPortId))).getD 0 = t
        rw [hfind_t]
        simp only [Option.some_bind, hfio_t]
        rfl
      have e1 : (importLinkConn
          (wfE.nodes.enum.map (fun ip => (ip.2.id, mkNodeId ip.1))) mkConnId k
          (exportLinkRecord (nodes.enum.map (fun ip => (ip.2.id, ip.1 + 1)))
            (reverseStrMap comfyTypeMap) nodes (1 + k) c)).sourceNodeId
          = mkNodeId js := by
        show (natMapGet (wfE.nodes.enum.map (fun ip => (ip.2.id, mkNodeId ip.1)))
          (exportLinkRecord (nodes.enum.map (fun ip => (ip.2.id, ip.1 + 1)))
            (reverseStrMap comfyTypeMap) nodes (1 + k) c).srcNode).getD ""
          = mkNodeId js
        rw [hsrcN, importTable_get mkNodeId wfE.nodes hcid2 js (by omega)]
        rfl
      have e2 : (importLinkConn
          (wfE.nodes.enum.map (fun ip => (ip.2.id, mkNodeId ip.1))) mkConnId k
          (exportLinkRecord (nodes.enum.map (fun ip => (ip.2.id, ip.1 + 1)))
            (reverseStrMap comfyTypeMap) nodes (1 + k) c)).sourcePortId
          = c.sourcePortId := by
        show "output-" ++ toString (exportLinkRecord
          (nodes.enum.map (fun ip => (ip.2.id, ip.1 + 1)))
          (reverseStrMap comfyTypeMap) nodes (1 + k) c).srcSlot = c.sourcePortId
        rw [hsrcS]
        exact hps
      have e3 : (importLinkConn
          (wfE.nodes.enum.map (fun ip => (ip.2.id, mkNodeId ip.1))) mkConnId k
          (exportLinkRecord (nodes.enum.map (fun ip => (ip.2.id, ip.1 + 1)))
            (reverseStrMap comfyTypeMap) nodes (1 + k) c)).targetNodeId
          = mkNodeId jt := by
        show (natMapGet (wfE.nodes.enum.map (fun ip => (ip.2.id, mkNodeId ip.1)))
          (exportLinkRecord (nodes.enum.map (fun ip => (ip.2.id, ip.1 + 1)))
            (reverseStrMap comfyTypeMap) nodes (1 + k) c).dstNode).getD ""
          = mkNodeId jt
        rw [hdstN, importTable_get mkNodeId wfE.nodes hcid2 jt (by omega)]
        rfl
      have e4 : (importLinkConn
          (wfE.nodes.enum.map (fun ip => (ip.2.id, mkNodeId ip.1))) mkConnId k
          (exportLinkRecord (nodes.enum.map (fun ip => (ip.2.id, ip.1 + 1)))
            (reverseStrMap comfyTypeMap) nodes (1 + k) c)).targetPortId
          = c.targetPortId := by
        show "input-" ++ toString (exportLinkRecord
          (nodes.enum.map (fun ip => (ip.2.id, ip.1 + 1)))
          (reverseStrMap comfyTypeMap) nodes (1 + k) c).dstSlot = c.targetPortId
        rw [hdstS]
        exact hpt
      rw [e1, e2, e3, e4, hfi_s, hfi_t]
      rfl

theorem exportImport_roundtrip_witness :
    (importComfyUIWorkflow []
        (fun i => "N" ++ toString i) (fun i => "C" ++ toString i)
        (exportToComfyUIWorkflow
          [⟨"a", "image-upload", (0, 0), [("imageUrl", Val.str "x")], [],
            [⟨"output-0", "图像", "image", true, false⟩], none⟩,
           ⟨"b", "image-output", (0, 0), [], [⟨"input-0", "图像", "image", true, false⟩],
            [], none⟩]
          [⟨"c1", "a", "output-0", "b", "input-0", some "image"⟩])).nodes.map
        NodeInstance.ntype
      = [⟨"a", "image-upload", (0, 0), [("imageUrl", Val.str "x")], [],
          [⟨"output-0", "图像", "image", true, false⟩], none⟩,
         ⟨"b", "image-output", (0, 0), [], [⟨"input-0", "图像", "image", true, false⟩],
          [], none⟩].map NodeInstance.ntype ∧
    (importComfyUIWorkflow []
        (fun i => "N" ++ toString i) (fun i => "C" ++ toString i)
        (exportToComfyUIWorkflow
          [⟨"a", "image-upload", (0, 0), [("imageUrl", Val.str "x")], [],
            [⟨"output-0", "图像", "image", true, false⟩], none⟩,
           ⟨"b", "image-output", (0, 0), [], [⟨"input-0", "图像", "image", true, false⟩],
            [], none⟩]
          [⟨"c1", "a", "output-0", "b", "input-0", some "image"⟩])).nodes.map
        NodeInstance.id
      = (List.range
          ([⟨"a", "image-upload", (0, 0), [("imageUrl", Val.str "x")], [],
             [⟨"output-0", "图像", "image", true, false⟩], none⟩,
            ⟨"b", "image-output", (0, 0), [], [⟨"input-0", "图像", "image", true, false⟩],
             [], none⟩] : List NodeInstance).length).map (fun i => "N" ++ toString i) ∧
    (importComfyUIWorkflow []
        (fun i => "N" ++ toString i) (fun i => "C" ++ toString i)
        (exportToComfyUIWorkflow
          [⟨"a", "image-upload", (0, 0), [("imageUrl", Val.str "x")], [],
            [⟨"output-0", "图像", "image", true, false⟩], none⟩,
           ⟨"b", "image-output", (0, 0), [], [⟨"input-0", "图像", "image", true, false⟩],
            [], none⟩]
          [⟨"c1", "a", "output-0", "b", "input-0", some "image"⟩])).connections.map
        (fun c => (c.sourceNodeId, c.sourcePortId, c.targetNodeId, c.targetPortId))
      = ([⟨"c1", "a", "output-0", "b", "input-0", some "image"⟩] :
          List Connection).map (fun c =>
          ((fun i => "N" ++ toString i)
            ((([⟨"a", "image-upload", (0, 0), [("imageUrl", Val.str "x")], [],
                [⟨"output-0", "图像", "image", true, false⟩], none⟩,
               ⟨"b", "image-output", (0, 0), [], [⟨"input-0", "图像", "image", true, false⟩],
                [], none⟩] : List NodeInstance).findIdx?
              (fun n => n.id == c.sourceNodeId)).getD 0),
           c.sourcePortId,
           (fun i => "N" ++ toString i)
            ((([⟨"a", "image-upload", (0, 0), [("imageUrl", Val.str "x")], [],
                [⟨"output-0", "图像", "image", true, false⟩], none⟩,
               ⟨"b", "image-output", (0, 0), [], [⟨"input-0", "图像", "image", true, false⟩],
                [], none⟩] : List NodeInstance).findIdx?
              (fun n => n.id == c.targetNodeId)).getD 0),
           c.targetPortId)) :=
  exportImport_roundtrip []
    (fun i => "N" ++ toString i) (fun i => "C" ++ toString i)
    [⟨"a", "image-upload", (0, 0), [("imageUrl", Val.str "x")], [],
      [⟨"output-0", "图像", "image", true, false⟩], none⟩,
     ⟨"b", "image-output", (0, 0), [], [⟨"input-0", "图像", "image", true, false⟩],
      [], none⟩]
    [⟨"c1", "a", "output-0", "b", "input-0", some "image"⟩]
    (by decide) (by decide) (by decide) (by decide) (by decide)
